import Mathlib

set_option maxHeartbeats 1000000

namespace RecipeSearch

/-! Shallow embedding of the recipe evolutionary-search core
(`island.py`, `cluster.py`, `helper.py`, `programs_database.py`,
`funsearch.py`).  Python floats are modelled by `PFloat` (an exact
rational together with NaN and the signed infinities); Python strings by
Lean strings; loosely-typed Python values reaching the normalisation code
by small inductive types covering the cases the source distinguishes with
`isinstance`. -/

/-- Model of a Python float value: a finite rational, NaN, or a signed
infinity.  (Finite doubles are rationals; we do not model rounding of
arithmetic, which the verified claims do not depend on.) -/
inductive PFloat where
  | num (q : ℚ)
  | nan
  | inf
  | ninf
deriving DecidableEq, Repr

/-- `math.isnan`. -/
def PFloat.isnan : PFloat → Bool
  | .nan => true
  | _ => false

/-- The value is an ordinary finite number. -/
def PFloat.isFiniteNum : PFloat → Bool
  | .num _ => true
  | _ => false

/-- IEEE-style strict `>`: every comparison involving NaN is false. -/
def PFloat.gtB : PFloat → PFloat → Bool
  | .num a, .num b => a > b
  | .num _, .ninf => true
  | .inf, .num _ => true
  | .inf, .ninf => true
  | _, _ => false

/-- IEEE-style strict `<`. -/
def PFloat.ltB (a b : PFloat) : Bool := PFloat.gtB b a

/-- IEEE-style `<=`: every comparison involving NaN is false. -/
def PFloat.leB : PFloat → PFloat → Bool
  | .num a, .num b => a ≤ b
  | .num _, .inf => true
  | .ninf, .num _ => true
  | .ninf, .inf => true
  | .ninf, .ninf => true
  | .inf, .inf => true
  | _, _ => false

/-- IEEE subtraction (only the cases exercised by the code matter;
NaN operands and `inf - inf` give NaN). -/
def PFloat.sub : PFloat → PFloat → PFloat
  | .num a, .num b => .num (a - b)
  | .num _, .inf => .ninf
  | .num _, .ninf => .inf
  | .inf, .num _ => .inf
  | .inf, .ninf => .inf
  | .ninf, .num _ => .ninf
  | .ninf, .inf => .ninf
  | _, _ => .nan

/-- IEEE absolute value. -/
def PFloat.abs : PFloat → PFloat
  | .num a => .num |a|
  | .nan => .nan
  | _ => .inf

/-- The whitespace characters stripped by Python `str.strip()` (ASCII). -/
def pyWs (c : Char) : Bool :=
  c = ' ' || c = '\t' || c = '\n' || c = '\r' || c = '\x0b' || c = '\x0c'

/-- Drop characters satisfying `p` from both ends of a character list. -/
def stripCharsList (p : Char → Bool) (cs : List Char) : List Char :=
  ((cs.dropWhile p).reverse.dropWhile p).reverse

/-- Python `s.strip()`. -/
def pyStrip (s : String) : String := String.mk (stripCharsList pyWs s.data)

/-- Python `s.strip('"')`. -/
def stripQuotes (s : String) : String :=
  String.mk (stripCharsList (fun c => c = '"') s.data)

/-- A loosely-typed Python value as inspected by the normalisation code in
`register_and_evaluate_program`: a string, a list (whose non-string items
are modelled by `none`, since `isinstance(i, str)` filters them out), or
anything else (including an absent key), which every `isinstance` test
rejects. -/
inductive PyField where
  | pstr (s : String)
  | plist (xs : List (Option String))
  | pnone
deriving DecidableEq, Repr

/-- Normalisation of the `instructions` field
(`island.py`, lines 154-160). -/
def normInstructions : PyField → String
  | .plist xs => String.intercalate " " ((xs.filterMap id).map stripQuotes)
  | .pstr s => pyStrip s
  | .pnone => ""

/-- Normalisation of the `ingredients` field
(`island.py`, lines 163-170). -/
def normIngredients : PyField → List String
  | .plist xs =>
      (xs.filterMap id).filterMap
        (fun i => if pyStrip i ≠ "" then some (stripQuotes i) else none)
  | .pstr s =>
      (s.splitOn ",").filterMap
        (fun i => let t := pyStrip i; if t ≠ "" then some t else none)
  | .pnone => []

/-- The result of `extract_recipe_details`, as consumed by
`register_and_evaluate_program`. -/
structure Recipe where
  recipe_name : PyField
  ingredients : PyField
  instructions : PyField
  recipe_idea : String
  essay : String
deriving DecidableEq, Repr

/-- The `scores` entry of an evaluator response: missing
(`response.get('scores', [None] * 7)` then supplies `[None] * 7`), present
but not a list, or a list of optional floats. -/
inductive ScoresField where
  | absent
  | nonlist
  | list (xs : List (Option PFloat))
deriving DecidableEq, Repr

/-- The `weighted_score` entry of an evaluator response: missing, `None`,
or a float. -/
inductive WeightedField where
  | absent
  | pynone
  | val (x : PFloat)
deriving DecidableEq, Repr

/-- An evaluator response as consumed by `register_and_evaluate_program`. -/
structure EvalResponse where
  scores : ScoresField
  weighted_score : WeightedField
  island_id : Option Int
deriving DecidableEq, Repr

/-- One row of the class-wide `Island._programs` DataFrame
(the `formatted_data` dict of `register_and_evaluate_program`). -/
structure FormattedData where
  island_id : Int
  recipe_idea : String
  essay : String
  recipe_name : String
  ingredients : List String
  instructions : String
  taste : PFloat
  appearance : PFloat
  creativity : PFloat
  crowd_appeal : PFloat
  recipe_ties_story : PFloat
  story_brings_to_life : PFloat
  passion : PFloat
  weighted_score : PFloat
deriving DecidableEq, Repr

instance : Inhabited FormattedData :=
  ⟨{ island_id := 0, recipe_idea := "", essay := "", recipe_name := "",
     ingredients := [], instructions := "",
     taste := .nan, appearance := .nan, creativity := .nan,
     crowd_appeal := .nan, recipe_ties_story := .nan,
     story_brings_to_life := .nan, passion := .nan,
     weighted_score := .nan }⟩

/-- One `{'program': ..., 'score': ...}` member of a cluster. -/
structure ClusterEntry where
  program : FormattedData
  score : PFloat
deriving DecidableEq, Repr

instance : Inhabited ClusterEntry := ⟨⟨default, .nan⟩⟩

/-- `cluster.py`: a cluster keeps a representative `_score` fixed at
construction and a member list. -/
structure Cluster where
  score : PFloat
  programs : List ClusterEntry
deriving DecidableEq, Repr

/-- `Cluster.__init__`. -/
def Cluster.create (score : PFloat) (program : FormattedData) : Cluster :=
  { score := score, programs := [⟨program, score⟩] }

/-- `Cluster.add_program` (appends; `_score` is not touched). -/
def Cluster.add_program (c : Cluster) (program : FormattedData)
    (score : PFloat) : Cluster :=
  { c with programs := c.programs ++ [⟨program, score⟩] }

/-- Per-island mutable state (`island_id`, `_best_program`, `_best_score`,
`_clusters`).  The class-wide `Island._programs` store is passed
separately. -/
structure IslandState where
  island_id : Int
  best_program : Option FormattedData
  best_score : PFloat
  clusters : List Cluster
deriving DecidableEq, Repr

/-- `Island.__init__`: best score starts at `float('-inf')`. -/
def initIsland (iid : Int) : IslandState := ⟨iid, none, .ninf, []⟩

/-- The `recipe_name` required-field test: must be a string with
non-empty `strip()`. -/
def nameValid : PyField → Bool
  | .pstr s => pyStrip s ≠ ""
  | _ => false

/-- The raw string behind a name field (used only on the valid branch). -/
def nameOf : PyField → String
  | .pstr s => s
  | _ => ""

/-- `response.get('scores', [None] * 7)` followed by the
`isinstance(scores, list)` test: `none` means the value was present but
not a list. -/
def scoresOfResp (resp : EvalResponse) : Option (List (Option PFloat)) :=
  match resp.scores with
  | .absent => some (List.replicate 7 none)
  | .nonlist => none
  | .list xs => some xs

/-- The `weighted_score` extraction: `some w` exactly when the key is
present, not `None` and not NaN (the source tests
`"weighted_score" not in response or response["weighted_score"] is None
or math.isnan(response["weighted_score"])`). -/
def weightedOfResp (resp : EvalResponse) : Option PFloat :=
  match resp.weighted_score with
  | .val x => if x.isnan then none else some x
  | _ => none

/-- Unpacking of the validated scores list (position `i`). -/
def scoreAt (xs : List (Option PFloat)) (i : ℕ) : PFloat :=
  (xs.getD i none).getD .nan

/-- The `formatted_data` dict built on the success path of
`register_and_evaluate_program`. -/
def formattedData (recipe : Recipe) (island_id : Int) (resp : EvalResponse)
    (instructions : String) (ingredients : List String)
    (scores : List (Option PFloat)) (w : PFloat) : FormattedData :=
  { island_id := resp.island_id.getD island_id
    recipe_idea := recipe.recipe_idea
    essay := recipe.essay
    recipe_name := pyStrip (nameOf recipe.recipe_name)
    ingredients := ingredients
    instructions := instructions
    taste := scoreAt scores 0
    appearance := scoreAt scores 1
    creativity := scoreAt scores 2
    crowd_appeal := scoreAt scores 3
    recipe_ties_story := scoreAt scores 4
    story_brings_to_life := scoreAt scores 5
    passion := scoreAt scores 6
    weighted_score := w }

/-- `Island._update_best_program`: replace iff strictly greater. -/
def update_best_program (st : IslandState) (fd : FormattedData) :
    IslandState :=
  if fd.weighted_score.gtB st.best_score then
    { st with best_program := some fd, best_score := fd.weighted_score }
  else st

/-- `Island.register_and_evaluate_program` (`island.py`, lines 141-223),
parameterised over the already-extracted recipe details.  Returns the new
island state and the new shared store.  Every early `return` of the
source becomes the unchanged pair. -/
def register_and_evaluate_program (st : IslandState)
    (store : List FormattedData) (recipe : Recipe) (island_id : Int)
    (resp : EvalResponse) : IslandState × List FormattedData :=
  let instructions := normInstructions recipe.instructions
  let ingredients := normIngredients recipe.ingredients
  if !(nameValid recipe.recipe_name) || instructions == "" ||
      ingredients.isEmpty then
    (st, store)
  else
    match scoresOfResp resp with
    | none => (st, store)
    | some scores =>
      if scores.length != 7 ||
          scores.any (fun s => s.isNone || (s.getD .nan).isnan) then
        (st, store)
      else
        match weightedOfResp resp with
        | none => (st, store)
        | some w =>
          let fd := formattedData recipe island_id resp instructions
            ingredients scores w
          (update_best_program st fd, store ++ [fd])

/-- The scores part of the registration validity check: a list of exactly
seven entries, none `None` and none NaN. -/
def scoresOk (resp : EvalResponse) : Bool :=
  match scoresOfResp resp with
  | some xs =>
      !(xs.length != 7 || xs.any (fun s => s.isNone || (s.getD .nan).isnan))
  | none => false

/-- The full registration validity predicate: non-empty name, normalised
instructions and ingredients; seven non-`None`, non-NaN scores; a
`weighted_score` that is present, not `None` and not NaN.  (Note: NOT
finiteness — an infinite weighted score passes.) -/
def registrationOk (recipe : Recipe) (resp : EvalResponse) : Bool :=
  nameValid recipe.recipe_name &&
  normInstructions recipe.instructions != "" &&
  !(normIngredients recipe.ingredients).isEmpty &&
  scoresOk resp &&
  (weightedOfResp resp).isSome

/-- The row appended on a successful registration. -/
def formattedOf (recipe : Recipe) (iid : Int) (resp : EvalResponse) :
    FormattedData :=
  formattedData recipe iid resp (normInstructions recipe.instructions)
    (normIngredients recipe.ingredients) ((scoresOfResp resp).getD [])
    ((weightedOfResp resp).getD .nan)

/-- One scheduled registration call of `generate_recipes_for_island_batch`
(`funsearch.py`, lines 158-161): the evolved recipe, the `island.island_id`
argument, and the evaluator response. -/
structure RegInput where
  recipe : Recipe
  island_id : Int
  resp : EvalResponse
deriving DecidableEq, Repr

/-- The effect of one `register_and_evaluate_program` call on the shared
class-wide store `Island._programs`: the source reads the store only to
append the already-built row (`pd.concat`, lines 216-220), never during
validation, so the store effect of a call is a pure step function of the
store.  The island-state argument does not influence the store component
(see `registerStoreStep_eq`), so a fixed fresh state is passed here. -/
def registerStoreStep (store : List FormattedData) (inp : RegInput) :
    List FormattedData :=
  (register_and_evaluate_program (initIsland inp.island_id) store
    inp.recipe inp.island_id inp.resp).2

/-- The row a single call contributes to the store: its formatted data if
it passes validation, nothing otherwise. -/
def regRow (i : RegInput) : Option FormattedData :=
  if registrationOk i.recipe i.resp then
    some (formattedOf i.recipe i.island_id i.resp)
  else none

/-- `fun_search_optimization` line 103:
`Island._programs = pd.DataFrame(columns=Island._programs.columns)` —
the class-wide store is reset to empty (same columns) before any island
is initialised, whatever a previous run left in it. -/
def resetStore (_prev : List FormattedData) : List FormattedData := []

/-- `fun_search_optimization` as it acts on the class-wide store: reset
first, then run this call's registrations in whatever order the event
loop interleaves them, and return the resulting store (line 118). -/
def fun_search_optimization (prev : List FormattedData)
    (calls : List RegInput) : List FormattedData :=
  calls.foldl registerStoreStep (resetStore prev)

/-! `Island.initialize_programs` (`island.py`, lines 32-72) with
`allow_infinite_retries=False`, modelled with the generator and the
register-success outcome as oracles indexed by the attempt number.
The loop variable `attempt` is paired with a fuel argument kept equal to
`max_total_attempts - attempt`, so `fuel = 0` after the increment is
exactly the source's `attempt >= max_total_attempts` test. -/
def initLoop (gen : ℕ → String) (regOk : ℕ → Bool) :
    ℕ → ℕ → ℕ × Bool
  | attempt, 0 => (attempt, false)
  | attempt, fuel + 1 =>
    let a := attempt + 1
    if gen a = "" then
      (if fuel = 0 then (a, false) else initLoop gen regOk a fuel)
    else if regOk a then (a, true)
    else if fuel = 0 then (a, false) else initLoop gen regOk a fuel

/-- `initialize_programs` with a given attempt cap (the source fixes the
cap at the constant `max_total_attempts = 100`; it is a parameter here so
both the 100 and the hypothetical 50 cap of the spec can be run).  The cap
check runs after the attempt counter is incremented, so even a cap of 0
performs one attempt; hence the `max cap 1`.  Returns (attempts made,
whether a program was registered). -/
def initialize_programs (gen : ℕ → String) (regOk : ℕ → Bool)
    (max_total_attempts : ℕ) : ℕ × Bool :=
  initLoop gen regOk 0 (max max_total_attempts 1)

/-- `Island.cluster_programs` loop body: try existing clusters in order,
add to the first one whose representative is within `0.5`, else append a
new cluster seeded with this program. -/
def admitB (c : Cluster) (s : PFloat) : Bool :=
  ((c.score.sub s).abs).ltB (.num (1/2))

def assignToClusters : List Cluster → FormattedData → PFloat → List Cluster
  | [], p, s => [Cluster.create s p]
  | c :: cs, p, s =>
    if admitB c s then Cluster.add_program c p s :: cs
    else c :: assignToClusters cs p s

/-- `Island.cluster_programs` (`island.py`, lines 227-256): fold the
island's rows, in store order, through the greedy assignment. -/
def cluster_programs (st : IslandState) (store : List FormattedData) :
    IslandState :=
  let rows := store.filter (fun r => r.island_id == st.island_id)
  { st with
      clusters :=
        rows.foldl (fun cs row => assignToClusters cs row row.weighted_score)
          st.clusters }

/-! `RecipeEvaluator.extract_scores_from_response`
(`programs_database.py`, lines 203-267).  The Python `json.loads` is an
external library call and is passed in as an oracle `jsonLoads`; the two
regex fallback tiers are implemented faithfully below (character-level
models of `re.search` for the two concrete patterns used). -/

/-- ASCII `\w` (regex word character). -/
def isWordChar (c : Char) : Bool := c.isAlphanum || c = '_'

/-- `re.search(r"\x7b[\s\S]*?\x7d", text)`: the match starts at the first
brace that has a closing brace after it (which is the first brace, if any
match exists at all) and ends at the first closing brace after it. -/
def firstBraceBlock (s : String) : Option String :=
  let cs := s.data
  match cs.findIdx? (· = '\x7b') with
  | none => none
  | some i =>
    match (cs.drop (i + 1)).findIdx? (· = '\x7d') with
    | none => none
    | some k => some (String.mk ((cs.drop i).take (k + 2)))

/-- A JSON value as classified by the tier-1 check
`isinstance(response_json[key], (int, float))`. -/
inductive JVal where
  | num (q : ℚ)
  | other
deriving DecidableEq, Repr

abbrev JsonObj := List (String × JVal)

/-- Python `dict` lookup on a parsed JSON object (later duplicates win). -/
def jlookup (obj : JsonObj) (k : String) : Option JVal :=
  obj.reverse.lookup k

/-- The fixed ordered key list `score_keys`. -/
def score_keys : List String :=
  ["taste", "appearance", "creativity", "crowd_appeal",
   "recipe_ties_story", "story_brings_to_life", "passion"]

/-- The fixed weight table (`weights` dict, in its insertion order). -/
def weightsList : List (String × ℚ) :=
  [("taste", 175/1000), ("appearance", 175/1000), ("creativity", 175/1000),
   ("crowd_appeal", 175/1000), ("recipe_ties_story", 12/100),
   ("story_brings_to_life", 12/100), ("passion", 6/100)]

/-- Python `round(x, 2)` on exact rationals (round half to even). -/
def round2 (q : ℚ) : ℚ :=
  let x := q * 100
  let f := ⌊x⌋
  let r := x - (f : ℚ)
  let n : ℤ :=
    if r < 1/2 then f
    else if 1/2 < r then f + 1
    else if f % 2 = 0 then f else f + 1
  (n : ℚ) / 100

/-- Case-insensitive literal match of `key` at the head of the text;
returns the remaining suffix on success. -/
def matchKeyCI : List Char → List Char → Option (List Char)
  | rest, [] => some rest
  | [], _ :: _ => none
  | c :: rest, k :: ks =>
    if c.toLower = k.toLower then matchKeyCI rest ks else none

/-- The digits of a captured group `([1-5](?:\.\d+)?)`: the unit digit,
the value of the fractional digit block, and the number of fractional
digits.  `float` of the captured text equals
`units + frac / 10 ^ fracLen`. -/
structure ScoreDigits where
  units : ℕ
  frac : ℕ
  fracLen : ℕ
deriving DecidableEq, Repr

/-- Python `float(...)` of the captured group. -/
def ScoreDigits.toRat (s : ScoreDigits) : ℚ :=
  (s.units : ℚ) + (s.frac : ℚ) / (10 : ℚ) ^ s.fracLen

/-- The optional fractional part `(?:\.\d+)?` of the captured group
(greedy): its digit-block value and digit count, or `(0, 0)` when the
group matched no fractional part. -/
def parseFracDigits : List Char → ℕ × ℕ
  | '.' :: e :: more =>
    if e.isDigit then
      ((e :: more.takeWhile Char.isDigit).foldl
        (fun acc c => acc * 10 + (c.toNat - '0'.toNat)) 0,
       (e :: more.takeWhile Char.isDigit).length)
    else (0, 0)
  | _ => (0, 0)

/-- The captured group `([1-5](?:\.\d+)?)` at the head of the text. -/
def parseScoreDigits : List Char → Option ScoreDigits
  | [] => none
  | d :: rest =>
    if '1' ≤ d ∧ d ≤ '5' then
      some ⟨d.toNat - '0'.toNat, (parseFracDigits rest).1,
        (parseFracDigits rest).2⟩
    else none

/-- The tail of the tier-2 pattern after the key:
`"?\s*[:=]\s*"?([1-5](?:\.\d+)?)"?`.  Optional quotes are consumed when
present (the backtracking alternative can never succeed, because a quote
is neither whitespace, `:`, `=`, nor a digit). -/
def dropQuote : List Char → List Char
  | '"' :: r => r
  | r => r

def matchAfterKey (rest : List Char) : Option ScoreDigits :=
  match (dropQuote rest).dropWhile pyWs with
  | c :: r3 =>
    if c = ':' || c = '=' then
      parseScoreDigits (dropQuote (r3.dropWhile pyWs))
    else none
  | [] => none

/-- One attempt of the tier-2 pattern
`"?\b{key}\b"?\s*[:=]\s*"?([1-5](?:\.\d+)?)"?` (IGNORECASE) at the
current position, given the preceding character.  If the position holds a
quote, the optional leading quote is consumed (and the `\b` holds); else
the `\b` requires the previous character to be a non-word character.  The
`\b` after the key needs no separate check: every continuation accepted
by `matchAfterKey` starts with a non-word character. -/
def tier2Here (key : List Char) (prev : Option Char) (text : List Char) :
    Option ScoreDigits :=
  match text with
  | '"' :: rest =>
    match matchKeyCI rest key with
    | some after => matchAfterKey after
    | none => none
  | _ =>
    if prev.all (fun c => !isWordChar c) then
      match matchKeyCI text key with
      | some after => matchAfterKey after
      | none => none
    else none

/-- `re.search` for the tier-2 pattern: try every position left to
right. -/
def tier2Go (key : List Char) : Option Char → List Char → Option ScoreDigits
  | prev, [] => tier2Here key prev []
  | prev, c :: rest =>
    match tier2Here key prev (c :: rest) with
    | some v => some v
    | none => tier2Go key (some c) rest

/-- Tier-2 search plus Python `float(match.group(1))`. -/
def tier2Search (text key : String) : Option ℚ :=
  (tier2Go key.data none text.data).map ScoreDigits.toRat

/-- Scan for `\b([1-5])\b` for the tier-3 pattern `{key}.*?\b([1-5])\b`.
Since `.` cannot match a newline, the scan fails on reaching one. -/
def findDigitSameLine : Option Char → List Char → Option ScoreDigits
  | _, [] => none
  | prev, c :: rest =>
    if c = '\n' then none
    else if ('1' ≤ c && c ≤ '5') && prev.all (fun p => !isWordChar p) &&
        rest.head?.all (fun n => !isWordChar n) then
      some ⟨c.toNat - '0'.toNat, 0, 0⟩
    else findDigitSameLine (some c) rest

/-- One attempt of the tier-3 pattern at the current position: the key
matched literally (case-insensitively, no word boundary), then the
nearest standalone digit 1-5 on the same line. -/
def tier3Here (key : List Char) (text : List Char) : Option ScoreDigits :=
  match matchKeyCI text key with
  | some after => findDigitSameLine key.getLast? after
  | none => none

def tier3Go (key : List Char) : List Char → Option ScoreDigits
  | [] => tier3Here key []
  | c :: rest =>
    match tier3Here key (c :: rest) with
    | some v => some v
    | none => tier3Go key rest

/-- Tier-3 search plus Python `float(match.group(1))`. -/
def tier3Search (text key : String) : Option ℚ :=
  (tier3Go key.data text.data).map ScoreDigits.toRat

/-- The result dict of `extract_scores_from_response`. -/
structure ExtractResult where
  scores : List (Option ℚ)
  weighted_score : ℚ
  island_id : Int
deriving DecidableEq, Repr

/-- Tier 1: parse the first brace block as JSON and accept numeric values
in [1, 5].  The running `scores` dict is an association list in insertion
order. -/
def tier1Scores (jsonLoads : String → Option JsonObj) (text : String) :
    List (String × ℚ) :=
  match firstBraceBlock text with
  | none => []
  | some block =>
    match jsonLoads block with
    | none => []
    | some obj =>
      score_keys.foldl (fun acc key =>
        match jlookup obj key with
        | some (JVal.num v) =>
          if 1 ≤ v ∧ v ≤ 5 then acc ++ [(key, v)] else acc
        | _ => acc) []

/-- A regex fallback tier: for each key, run the search and record the
value when the search matched and the key is still missing. -/
def addTier (matcher : String → Option ℚ) (scores : List (String × ℚ)) :
    List (String × ℚ) :=
  score_keys.foldl (fun acc key =>
    match matcher key with
    | some v => if (acc.lookup key).isNone then acc ++ [(key, v)] else acc
    | none => acc) scores

/-- `extract_scores_from_response` (`programs_database.py`,
lines 203-267): three tiers, each later tier run only while fewer than 7
keys are resolved; then the weighted score over defaults-to-0 values,
rounded to 2 decimals. -/
def extract_scores_from_response (jsonLoads : String → Option JsonObj)
    (response_text : String) (island_id : Int) : ExtractResult :=
  let s1 := tier1Scores jsonLoads response_text
  let s2 :=
    if s1.length < 7 then addTier (tier2Search response_text) s1 else s1
  let s3 :=
    if s2.length < 7 then addTier (tier3Search response_text) s2 else s2
  let weighted := round2 (weightsList.foldl
    (fun acc kw => acc + ((s3.lookup kw.1).getD 0) * kw.2) 0)
  { scores := score_keys.map (fun k => s3.lookup k),
    weighted_score := weighted, island_id := island_id }

/-! `helper.softmax`, `Cluster.get_best_program` (`cluster.py`) and
`Island.rank_programs` (`island.py`, lines 122-139).  These paths run on
numpy float arrays; they are modelled over `NFloat` (a real number, NaN,
or a signed infinity) with numpy's NaN-propagating reduction semantics.
`Real.exp` makes these definitions noncomputable; the scanning parts of
the pipeline above stay computable. -/

/-- A numpy float value: a real number, NaN, or a signed infinity. -/
inductive NFloat where
  | num (x : ℝ)
  | nan
  | inf
  | ninf

def NFloat.isNan : NFloat → Bool
  | .nan => true
  | _ => false

def PFloat.toNFloat : PFloat → NFloat
  | .num q => .num (q : ℝ)
  | .nan => .nan
  | .inf => .inf
  | .ninf => .ninf

/-- `np.maximum` (pairwise, NaN-propagating, as used by `np.max`). -/
noncomputable def NFloat.maxOp : NFloat → NFloat → NFloat
  | .nan, _ => .nan
  | _, .nan => .nan
  | .inf, _ => .inf
  | _, .inf => .inf
  | .ninf, y => y
  | x, .ninf => x
  | .num a, .num b => .num (max a b)

/-- IEEE subtraction on numpy floats. -/
noncomputable def NFloat.sub : NFloat → NFloat → NFloat
  | .nan, _ => .nan
  | _, .nan => .nan
  | .num a, .num b => .num (a - b)
  | .num _, .inf => .ninf
  | .num _, .ninf => .inf
  | .inf, .num _ => .inf
  | .inf, .ninf => .inf
  | .inf, .inf => .nan
  | .ninf, .num _ => .ninf
  | .ninf, .inf => .ninf
  | .ninf, .ninf => .nan

/-- `np.exp` elementwise. -/
noncomputable def NFloat.exp : NFloat → NFloat
  | .num x => .num (Real.exp x)
  | .nan => .nan
  | .inf => .inf
  | .ninf => .num 0

/-- IEEE addition on numpy floats. -/
noncomputable def NFloat.add : NFloat → NFloat → NFloat
  | .nan, _ => .nan
  | _, .nan => .nan
  | .num a, .num b => .num (a + b)
  | .num _, .inf => .inf
  | .inf, .num _ => .inf
  | .inf, .inf => .inf
  | .num _, .ninf => .ninf
  | .ninf, .num _ => .ninf
  | .ninf, .ninf => .ninf
  | .inf, .ninf => .nan
  | .ninf, .inf => .nan

open Classical in
/-- IEEE division on numpy floats (the denominator is a strictly positive
finite sum in every guarded use below, so the zero-denominator convention
is irrelevant there). -/
noncomputable def NFloat.div : NFloat → NFloat → NFloat
  | .nan, _ => .nan
  | _, .nan => .nan
  | .num a, .num b => .num (a / b)
  | .num _, .inf => .num 0
  | .num _, .ninf => .num 0
  | .inf, .num b => if b < 0 then .ninf else .inf
  | .ninf, .num b => if b < 0 then .inf else .ninf
  | _, _ => .nan

/-- `np.max` over a 1-D array: raises `ValueError` on an empty array,
else reduces with the NaN-propagating pairwise maximum. -/
noncomputable def npMax : List NFloat → Except String NFloat
  | [] => .error "zero-size array to reduction operation maximum"
  | x :: xs => .ok (xs.foldl NFloat.maxOp x)

/-- `helper.softmax` (`helper.py`, lines 1-15): subtract the maximum for
stability, exponentiate, normalise by the sum.  Propagates the `np.max`
exception of an empty array. -/
noncomputable def softmaxNF (xs : List NFloat) : Except String (List NFloat) :=
  match npMax xs with
  | .error e => .error e
  | .ok m =>
    let exps := xs.map (fun v => NFloat.exp (v.sub m))
    let s := exps.foldl NFloat.add (NFloat.num 0)
    .ok (exps.map (fun e => e.div s))

/-- `v` beats the running maximum in the `np.argmax` scan:
IEEE `not (v <= mp)`, i.e. strictly greater, with NaN treated as maximal
and the first NaN kept. -/
def NFloat.gtP : NFloat → NFloat → Prop
  | .num a, .num b => b < a
  | .num _, .ninf => True
  | .inf, .num _ => True
  | .inf, .ninf => True
  | _, _ => False

open Classical in
/-- The `np.argmax` left-to-right scan, tracking the current best index
and value. -/
noncomputable def argmaxGo : List NFloat → ℕ → ℕ → NFloat → ℕ
  | [], _, bi, _ => bi
  | v :: rest, i, bi, bv =>
    if NFloat.gtP v bv ∨ (v.isNan = true ∧ bv.isNan = false) then
      argmaxGo rest (i + 1) i v
    else argmaxGo rest (i + 1) bi bv

/-- `np.argmax` (first maximum; first NaN when NaNs are present). -/
noncomputable def argmaxNF : List NFloat → ℕ
  | [] => 0
  | x :: xs => argmaxGo xs 1 0 x

/-- `Cluster.get_best_program` (`cluster.py`, lines 49-64): softmax over
the member raw scores, then `np.argmax`.  The `np.max` inside `softmax`
raises on an empty member list. -/
noncomputable def Cluster.get_best_program (c : Cluster) :
    Except String ClusterEntry :=
  match softmaxNF (c.programs.map (fun p => p.score.toNFloat)) with
  | .error e => .error e
  | .ok sm => .ok (c.programs.getD (argmaxNF sm) default)

/-- A row of the DataFrame returned by `rank_programs`: the original row
with the `softmax_score` column attached. -/
structure RankedRow where
  row : FormattedData
  softmax_score : NFloat

/-- The sort key class for descending order with NaN placed last
(pandas `sort_values(ascending=False)` semantics; tie order among equal
keys is not specified by the claims). -/
def NFloat.sortClass : NFloat → ℕ
  | .inf => 0
  | .num _ => 1
  | .ninf => 2
  | .nan => 3

noncomputable def NFloat.descVal : NFloat → ℝ
  | .num x => -x
  | _ => 0

/-- `a` sorts no later than `b` in the descending order. -/
noncomputable def rankLe (a b : NFloat) : Prop :=
  a.sortClass < b.sortClass ∨
    (a.sortClass = b.sortClass ∧ a.descVal ≤ b.descVal)

open Classical in
/-- `Island.rank_programs` (`island.py`, lines 122-139): take the
island's own rows, return empty on an empty island, else attach the
softmax of the weighted scores and sort descending by it.  The
`softmaxNF` error branch is unreachable because the row list is non-empty
there. -/
noncomputable def rank_programs (store : List FormattedData) (iid : Int) :
    List RankedRow :=
  let rows := store.filter (fun r => r.island_id == iid)
  if rows.isEmpty then []
  else
    match softmaxNF (rows.map (fun r => r.weighted_score.toNFloat)) with
    | .error _ => []
    | .ok sm =>
      (List.zipWith RankedRow.mk rows sm).insertionSort
        (fun a b => rankLe a.softmax_score b.softmax_score)

/-- `rank_programs` seen at state level: the method reads the class-wide
store, works on a `.copy()`, and never assigns `Island._programs` (the
only assignment in the source is the append in the register step), so the
store passes through unchanged. -/
noncomputable def rank_state (store : List FormattedData) (iid : Int) :
    List FormattedData × List RankedRow :=
  (store, rank_programs store iid)

/-- `exp_scores.sum()` / the sum of a float column. -/
noncomputable def nfSum (xs : List NFloat) : NFloat :=
  xs.foldl NFloat.add (NFloat.num 0)

/-- The real-number softmax under the hood of `softmaxNF` on all-finite
input. -/
noncomputable def softmaxR (rs : List ℝ) : List ℝ :=
  match rs with
  | [] => []
  | x :: rest =>
    let exps := (x :: rest).map (fun v => Real.exp (v - rest.foldl max x))
    exps.map (fun e => e / exps.sum)

open Classical in
/-- The `np.argmax` scan on plain reals. -/
noncomputable def realArgmaxGo : List ℝ → ℕ → ℕ → ℝ → ℕ
  | [], _, bi, _ => bi
  | v :: rest, i, bi, bv =>
    if bv < v then realArgmaxGo rest (i + 1) i v
    else realArgmaxGo rest (i + 1) bi bv

noncomputable def realArgmax : List ℝ → ℕ
  | [] => 0
  | x :: xs => realArgmaxGo xs 1 0 x

/-- The real value of a finite `PFloat` (used under the finiteness
hypotheses of the softmax claims). -/
noncomputable def pfReal : PFloat → ℝ
  | .num q => (q : ℝ)
  | _ => 0

/-- The real payload of a finite `NFloat` (0 on the non-finite values;
used only on all-finite lists). -/
noncomputable def nfReal : NFloat → ℝ
  | .num x => x
  | _ => 0

lemma register_unfold (st : IslandState) (store : List FormattedData)
    (recipe : Recipe) (iid : Int) (resp : EvalResponse) :
    register_and_evaluate_program st store recipe iid resp =
      if registrationOk recipe resp = true then
        (update_best_program st (formattedOf recipe iid resp),
         store ++ [formattedOf recipe iid resp])
      else (st, store) := by
  unfold register_and_evaluate_program
  by_cases hc : (!nameValid recipe.recipe_name ||
      normInstructions recipe.instructions == "" ||
      (normIngredients recipe.ingredients).isEmpty) = true
  · rw [if_pos hc]
    have hok : registrationOk recipe resp = false := by
      unfold registrationOk
      simp only [Bool.or_eq_true, Bool.not_eq_true'] at hc
      rcases hc with (hn | hi) | hg
      · simp [hn]
      · have hb : (normInstructions recipe.instructions != "") = false := by
          rw [bne, hi]; rfl
        simp [hb]
      · simp [hg]
    rw [hok]
    simp
  · rw [if_neg hc]
    simp only [Bool.or_eq_true, Bool.not_eq_true', not_or] at hc
    obtain ⟨⟨hn, hi⟩, hg⟩ := hc
    have hn' : nameValid recipe.recipe_name = true := by
      cases h : nameValid recipe.recipe_name
      · exact absurd h hn
      · rfl
    have hi' : (normInstructions recipe.instructions == "") = false := by
      cases h : (normInstructions recipe.instructions == "")
      · rfl
      · exact absurd h hi
    have hg' : (normIngredients recipe.ingredients).isEmpty = false := by
      cases h : (normIngredients recipe.ingredients).isEmpty
      · rfl
      · exact absurd h hg
    rcases hs : scoresOfResp resp with _ | xs
    · have hok : registrationOk recipe resp = false := by
        unfold registrationOk scoresOk
        rw [hs]
        simp
      rw [hok]
      simp
    · by_cases hlen : (xs.length != 7 ||
          xs.any fun s => s.isNone || (s.getD PFloat.nan).isnan) = true
      · have hok : registrationOk recipe resp = false := by
          unfold registrationOk scoresOk
          rw [hs]
          simp [hlen]
        rw [hok]
        simp only [Bool.false_eq_true, if_false]
        rw [if_pos hlen]
      · have hlen' : (xs.length != 7 ||
            xs.any fun s => s.isNone || (s.getD PFloat.nan).isnan) = false := by
          cases h : (xs.length != 7 ||
              xs.any fun s => s.isNone || (s.getD PFloat.nan).isnan)
          · rfl
          · exact absurd h hlen
        rcases hw : weightedOfResp resp with _ | w
        · have hok : registrationOk recipe resp = false := by
            unfold registrationOk
            rw [hw]
            simp
          rw [hok]
          simp [hlen, hw]
        · have hok : registrationOk recipe resp = true := by
            unfold registrationOk scoresOk
            rw [hs, hw]
            simp [bne, hn', hi', hg', hlen']
            simp only [bne] at hlen'
            simp at hlen'
            exact hlen'
          rw [hok]
          simp [formattedOf, hlen, hs, hw]

lemma initLoop_one (gen : ℕ → String) (regOk : ℕ → Bool) (a : ℕ) :
    initLoop gen regOk a 1 =
      if gen (a + 1) = "" then (a + 1, false)
      else if regOk (a + 1) then (a + 1, true)
      else (a + 1, false) :=
  rfl

lemma initLoop_succ (gen : ℕ → String) (regOk : ℕ → Bool) (a f : ℕ) :
    initLoop gen regOk a (f + 1) =
      if gen (a + 1) = "" then
        (if f = 0 then (a + 1, false) else initLoop gen regOk (a + 1) f)
      else if regOk (a + 1) then (a + 1, true)
      else if f = 0 then (a + 1, false) else initLoop gen regOk (a + 1) f :=
  rfl

lemma initLoop_fst_le (gen : ℕ → String) (regOk : ℕ → Bool) :
    ∀ fuel attempt, (initLoop gen regOk attempt fuel).1 ≤ attempt + fuel := by
  intro fuel
  induction fuel with
  | zero => intro a; simp [initLoop]
  | succ f ih =>
    intro a
    rw [initLoop_succ]
    split
    · split
      · show a + 1 ≤ a + (f + 1); omega
      · have := ih (a + 1); omega
    · split
      · show a + 1 ≤ a + (f + 1); omega
      · split
        · show a + 1 ≤ a + (f + 1); omega
        · have := ih (a + 1); omega

lemma initLoop_skip_empty (gen : ℕ → String) (regOk : ℕ → Bool) :
    ∀ fuel attempt, 1 ≤ fuel →
      (∀ k, attempt < k → k < attempt + fuel → gen k = "") →
      initLoop gen regOk attempt fuel =
        initLoop gen regOk (attempt + fuel - 1) 1 := by
  intro fuel
  induction fuel with
  | zero => intro a h hk; omega
  | succ f ih =>
    intro a _ hk
    rcases Nat.eq_zero_or_pos f with hf | hf
    · subst hf; rfl
    · have hga : gen (a + 1) = "" := hk (a + 1) (by omega) (by omega)
      have hfne : ¬ f = 0 := by omega
      rw [initLoop_succ, if_pos hga, if_neg hfne,
        ih (a + 1) (by omega) (fun k h1 h2 => hk k (by omega) (by omega))]
      have heq : a + 1 + f - 1 = a + (f + 1) - 1 := by omega
      rw [heq]

/-- Claim C1 (amended): an artifact is appended to the shared store iff its
recipe name, normalised instructions and normalised ingredients are
non-empty and the response carries a list of exactly seven scores, all
present and non-NaN, and a weighted score that is present and non-NaN
(finiteness is NOT required: an infinite weighted score is accepted); on
success the island's running best is replaced iff the new weighted score
is strictly greater; on any validation failure the call is a no-op that
leaves both the store and the island state unchanged; in particular an
artifact whose normalised ingredients list is empty is never appended. -/
theorem claim_C1_registration (st : IslandState) (store : List FormattedData)
    (recipe : Recipe) (iid : Int) (resp : EvalResponse) :
    ((register_and_evaluate_program st store recipe iid resp).2.length =
        store.length + 1 ↔ registrationOk recipe resp = true) ∧
    (registrationOk recipe resp = false →
      register_and_evaluate_program st store recipe iid resp = (st, store)) ∧
    (registrationOk recipe resp = true →
      (register_and_evaluate_program st store recipe iid resp).2 =
        store ++ [formattedOf recipe iid resp] ∧
      (register_and_evaluate_program st store recipe iid resp).1 =
        update_best_program st (formattedOf recipe iid resp)) ∧
    (∀ fd : FormattedData,
      (fd.weighted_score.gtB st.best_score = true →
        update_best_program st fd =
          ⟨st.island_id, some fd, fd.weighted_score, st.clusters⟩) ∧
      (fd.weighted_score.gtB st.best_score = false →
        update_best_program st fd = st)) ∧
    (normIngredients recipe.ingredients = [] →
      register_and_evaluate_program st store recipe iid resp = (st, store)) := by
  have hu := register_unfold st store recipe iid resp
  refine ⟨?_, ?_, ?_, ?_, ?_⟩
  · cases hok : registrationOk recipe resp
    · rw [hok] at hu
      simp only [Bool.false_eq_true, if_false] at hu
      rw [hu]
      simp
    · rw [hok] at hu
      simp only [if_true] at hu
      rw [hu]
      simp
  · intro hok
    rw [hok] at hu
    simpa using hu
  · intro hok
    rw [hok] at hu
    simp only [if_true] at hu
    rw [hu]
    exact ⟨rfl, rfl⟩
  · intro fd
    constructor
    · intro hgt
      unfold update_best_program
      rw [if_pos hgt]
    · intro hgt
      unfold update_best_program
      rw [hgt]
      simp
  · intro hempty
    have hok : registrationOk recipe resp = false := by
      unfold registrationOk
      rw [hempty]
      simp
    rw [hok] at hu
    simpa using hu

/-- Witness for C1: a fully valid registration appends one row. -/
theorem claim_C1_registration_witness :
    registrationOk
        ⟨.pstr "Cake", .plist [some "flour"], .pstr "Mix well", "", ""⟩
        ⟨.list [some (.num 3), some (.num 3), some (.num 3), some (.num 3),
                some (.num 3), some (.num 3), some (.num 3)],
         .val (.num 2), none⟩ = true ∧
    (register_and_evaluate_program (initIsland 0) []
        ⟨.pstr "Cake", .plist [some "flour"], .pstr "Mix well", "", ""⟩ 0
        ⟨.list [some (.num 3), some (.num 3), some (.num 3), some (.num 3),
                some (.num 3), some (.num 3), some (.num 3)],
         .val (.num 2), none⟩).2.length = 0 + 1 := by
  refine ⟨by decide, ?_⟩
  exact (claim_C1_registration (initIsland 0) []
    ⟨.pstr "Cake", .plist [some "flour"], .pstr "Mix well", "", ""⟩ 0
    ⟨.list [some (.num 3), some (.num 3), some (.num 3), some (.num 3),
            some (.num 3), some (.num 3), some (.num 3)],
     .val (.num 2), none⟩).1.mpr (by decide)

/-- Counterexample to C1 as stated: a response whose weighted score is
`+inf` (present and non-NaN, but NOT a finite number) is appended to the
store, although the claim requires the weighted fitness to be finite for
registration. -/
theorem claim_C1_cex :
    ((register_and_evaluate_program (initIsland 0) []
        ⟨.pstr "Cake", .plist [some "flour"], .pstr "Mix well", "", ""⟩ 0
        ⟨.list [some (.num 3), some (.num 3), some (.num 3), some (.num 3),
                some (.num 3), some (.num 3), some (.num 3)],
         .val .inf, none⟩).2).length = 1 ∧
    PFloat.isFiniteNum .inf = false := by
  exact ⟨by decide, rfl⟩

/-- Claim C3: with bounded retries, `initialize_programs` makes at most
`100` attempts and terminates; a generator that is empty on attempts
`1..99` and valid on attempt `100` registers at cap `100` (store grows),
while at cap `50` the loop gives up at attempt `50` with no registration. -/
theorem claim_C3_bounded_attempts (gen : ℕ → String) (regOk : ℕ → Bool)
    (h1 : ∀ k, k < 100 → gen k = "")
    (h2 : gen 100 ≠ "") (h3 : regOk 100 = true) :
    initialize_programs gen regOk 100 = (100, true) ∧
    initialize_programs gen regOk 50 = (50, false) ∧
    (∀ g r, (initialize_programs g r 100).1 ≤ 100) := by
  refine ⟨?_, ?_, ?_⟩
  · unfold initialize_programs
    rw [show max 100 1 = 100 from rfl]
    rw [initLoop_skip_empty gen regOk 100 0 (by omega)
      (fun k hk1 hk2 => h1 k (by omega))]
    rw [show (0 + 100 - 1 : ℕ) = 99 from rfl]
    rw [initLoop_one]
    rw [show (99 + 1 : ℕ) = 100 from rfl]
    rw [if_neg h2, if_pos h3]
  · unfold initialize_programs
    rw [show max 50 1 = 50 from rfl]
    rw [initLoop_skip_empty gen regOk 50 0 (by omega)
      (fun k hk1 hk2 => h1 k (by omega))]
    rw [show (0 + 50 - 1 : ℕ) = 49 from rfl]
    rw [initLoop_one]
    rw [show (49 + 1 : ℕ) = 50 from rfl]
    rw [if_pos (h1 50 (by omega))]
  · intro g r
    have h := initLoop_fst_le g r (max 100 1) 0
    simpa [initialize_programs] using h

/-- Witness for C3: the mock generator that is empty before attempt 100
and valid from attempt 100 on. -/
theorem claim_C3_bounded_attempts_witness :
    (∀ k, k < 100 → (fun n => if n < 100 then "" else "recipe") k = "") ∧
    (fun n : ℕ => if n < 100 then "" else "recipe") 100 ≠ "" ∧
    initialize_programs (fun n => if n < 100 then "" else "recipe")
      (fun _ => true) 100 = (100, true) ∧
    initialize_programs (fun n => if n < 100 then "" else "recipe")
      (fun _ => true) 50 = (50, false) := by
  refine ⟨by decide, by decide, ?_, ?_⟩
  · exact (claim_C3_bounded_attempts (fun n => if n < 100 then "" else "recipe")
      (fun _ => true) (by decide) (by decide) rfl).1
  · exact (claim_C3_bounded_attempts (fun n => if n < 100 then "" else "recipe")
      (fun _ => true) (by decide) (by decide) rfl).2.1

/-- Claim C4: a cluster's representative score is the score of its first
member and is never changed by `add_program`; during `cluster_programs`
an artifact is admitted into the first existing cluster with
`|representative - score| < 0.5` (so a difference of exactly 0.5 or more
creates a new cluster whose representative is the incoming score), and
the comparison is always against the unchanged representative. -/
theorem claim_C4_cluster_invariants :
    ∀ (c : Cluster) (cs : List Cluster) (p : FormattedData) (s : PFloat)
      (a b : ℚ),
      ((c.add_program p s).score = c.score) ∧
      ((c.add_program p s).programs = c.programs ++ [⟨p, s⟩]) ∧
      ((Cluster.create s p).score = s) ∧
      ((Cluster.create s p).programs = [⟨p, s⟩]) ∧
      ((assignToClusters cs p s).map Cluster.score =
        if cs.any (fun c => admitB c s) then cs.map Cluster.score
        else cs.map Cluster.score ++ [s]) ∧
      (admitB (Cluster.create (.num a) p) (.num b) = decide (|a - b| < 1/2)) ∧
      (∀ (st : IslandState) (store : List FormattedData),
        (cluster_programs st store).clusters =
          (store.filter (fun r => r.island_id == st.island_id)).foldl
            (fun cs row => assignToClusters cs row row.weighted_score)
            st.clusters) := by
  intro c cs p s a b
  refine ⟨rfl, rfl, rfl, rfl, ?_, ?_, fun st store => rfl⟩
  · induction cs with
    | nil => simp [assignToClusters, Cluster.create]
    | cons hd tl ih =>
      by_cases h : admitB hd s = true
      · simp [assignToClusters, h, Cluster.add_program]
      · have h' : admitB hd s = false := by
          cases hx : admitB hd s
          · rfl
          · exact absurd hx h
        simp only [assignToClusters, h', Bool.false_eq_true, if_false,
          List.map_cons, List.any_cons, Bool.false_or, ih]
        by_cases ht : tl.any (fun c => admitB c s) = true
        · rw [ht]
          simp
        · have ht' : tl.any (fun c => admitB c s) = false := by
            cases hx : tl.any (fun c => admitB c s)
            · rfl
            · exact absurd hx ht
          rw [ht']
          simp
  · rfl

lemma digitsFold_lt (ds : List Char) (h : ∀ c ∈ ds, c.isDigit = true) :
    ∀ acc : ℕ,
      ds.foldl (fun acc c => acc * 10 + (c.toNat - '0'.toNat)) acc <
        (acc + 1) * 10 ^ ds.length := by
  induction ds with
  | nil => intro acc; simp
  | cons c tl ih =>
    intro acc
    have hc : c.toNat - '0'.toNat ≤ 9 := by
      have hb : 48 ≤ c.toNat ∧ c.toNat ≤ 57 := by
        have hd := h c (by simp)
        simp [Char.isDigit, Char.le_def, decide_eq_true_eq] at hd
        exact ⟨hd.1, hd.2⟩
      have h0 : '0'.toNat = 48 := rfl
      omega
    have htl := ih (fun x hx => h x (by simp [hx]))
      (acc * 10 + (c.toNat - '0'.toNat))
    calc (c :: tl).foldl (fun acc c => acc * 10 + (c.toNat - '0'.toNat)) acc
        = tl.foldl (fun acc c => acc * 10 + (c.toNat - '0'.toNat))
            (acc * 10 + (c.toNat - '0'.toNat)) := rfl
      _ < (acc * 10 + (c.toNat - '0'.toNat) + 1) * 10 ^ tl.length := htl
      _ ≤ ((acc + 1) * 10) * 10 ^ tl.length :=
          Nat.mul_le_mul_right _ (by omega)
      _ = (acc + 1) * 10 ^ (tl.length + 1) := by ring
      _ = (acc + 1) * 10 ^ (c :: tl).length := by simp

lemma parseFracDigits_lt (rest : List Char) :
    (parseFracDigits rest).1 < 10 ^ (parseFracDigits rest).2 := by
  unfold parseFracDigits
  split
  · rename_i e more
    split
    · rename_i hdig
      have := digitsFold_lt (e :: more.takeWhile Char.isDigit)
        (by
          intro c hcmem
          rcases List.mem_cons.mp hcmem with hc | hc
          · subst hc; exact hdig
          · exact List.mem_takeWhile_imp hc) 0
      simpa using this
    · norm_num
  · norm_num

lemma parseScoreDigits_ok (cs : List Char) (s : ScoreDigits)
    (h : parseScoreDigits cs = some s) :
    1 ≤ s.units ∧ s.units ≤ 5 ∧ s.frac < 10 ^ s.fracLen := by
  match cs with
  | [] => simp [parseScoreDigits] at h
  | d :: rest =>
    simp only [parseScoreDigits] at h
    split at h
    · rename_i hd
      have h0 : '0'.toNat = 48 := rfl
      have hd1 : 49 ≤ d.toNat := by
        have := hd.1; rw [Char.le_def] at this; exact this
      have hd5 : d.toNat ≤ 53 := by
        have := hd.2; rw [Char.le_def] at this; exact this
      injection h with h
      subst h
      exact ⟨by show 1 ≤ d.toNat - '0'.toNat; omega,
        by show d.toNat - '0'.toNat ≤ 5; omega,
        parseFracDigits_lt rest⟩
    · simp at h

lemma toRat_range (s : ScoreDigits) (h1 : 1 ≤ s.units) (h5 : s.units ≤ 5)
    (hf : s.frac < 10 ^ s.fracLen) : 1 ≤ s.toRat ∧ s.toRat < 6 := by
  unfold ScoreDigits.toRat
  have hu1 : (1 : ℚ) ≤ (s.units : ℚ) := by exact_mod_cast h1
  have hu5 : (s.units : ℚ) ≤ 5 := by exact_mod_cast h5
  have hnn : (0 : ℚ) ≤ (s.frac : ℚ) / (10 : ℚ) ^ s.fracLen := by positivity
  have hfrac : (s.frac : ℚ) / (10 : ℚ) ^ s.fracLen < 1 := by
    rw [div_lt_one (by positivity)]
    exact_mod_cast hf
  exact ⟨by linarith, by linarith⟩

lemma matchAfterKey_ok (cs : List Char) (s : ScoreDigits)
    (h : matchAfterKey cs = some s) :
    1 ≤ s.units ∧ s.units ≤ 5 ∧ s.frac < 10 ^ s.fracLen := by
  unfold matchAfterKey at h
  split at h
  · split at h
    · exact parseScoreDigits_ok _ _ h
    · simp at h
  · simp at h

lemma tier2Here_ok (key : List Char) (prev : Option Char)
    (text : List Char) (s : ScoreDigits) (h : tier2Here key prev text = some s) :
    1 ≤ s.units ∧ s.units ≤ 5 ∧ s.frac < 10 ^ s.fracLen := by
  unfold tier2Here at h
  split at h
  · split at h
    · exact matchAfterKey_ok _ _ h
    · simp at h
  · split at h
    · split at h
      · exact matchAfterKey_ok _ _ h
      · simp at h
    · simp at h

lemma tier2Go_ok (key : List Char) :
    ∀ (text : List Char) (prev : Option Char) (s : ScoreDigits),
      tier2Go key prev text = some s →
      1 ≤ s.units ∧ s.units ≤ 5 ∧ s.frac < 10 ^ s.fracLen := by
  intro text
  induction text with
  | nil =>
    intro prev s h
    unfold tier2Go at h
    exact tier2Here_ok _ _ _ _ h
  | cons c rest ih =>
    intro prev s h
    unfold tier2Go at h
    split at h
    · rename_i v hv
      injection h with h
      subst h
      exact tier2Here_ok _ _ _ _ hv
    · exact ih _ _ h

lemma tier2Search_range (text key : String) (q : ℚ)
    (h : tier2Search text key = some q) : 1 ≤ q ∧ q < 6 := by
  unfold tier2Search at h
  rcases hg : tier2Go key.data none text.data with _ | s
  · rw [hg] at h; simp at h
  · rw [hg] at h
    simp only [Option.map_some'] at h
    obtain ⟨hb1, hb2, hb3⟩ := tier2Go_ok key.data text.data none s hg
    have hr := toRat_range s hb1 hb2 hb3
    injection h with h
    rw [← h]
    exact hr

lemma extract_of_seven (jsonLoads : String → Option JsonObj) (text : String)
    (iid : Int) (h7 : (tier1Scores jsonLoads text).length = 7) :
    extract_scores_from_response jsonLoads text iid =
      { scores :=
          score_keys.map (fun k => (tier1Scores jsonLoads text).lookup k),
        weighted_score := round2 (weightsList.foldl
          (fun acc kw =>
            acc + (((tier1Scores jsonLoads text).lookup kw.1).getD 0) * kw.2)
          0),
        island_id := iid } := by
  simp [extract_scores_from_response, h7]
theorem claim_C2_tier1_extraction (jsonLoads : String → Option JsonObj)
    (text block : String) (obj : JsonObj) (iid : Int)
    (v1 v2 v3 v4 v5 v6 v7 : ℚ)
    (hb : firstBraceBlock text = some block)
    (hj : jsonLoads block = some obj)
    (k1 : jlookup obj "taste" = some (.num v1))
    (k2 : jlookup obj "appearance" = some (.num v2))
    (k3 : jlookup obj "creativity" = some (.num v3))
    (k4 : jlookup obj "crowd_appeal" = some (.num v4))
    (k5 : jlookup obj "recipe_ties_story" = some (.num v5))
    (k6 : jlookup obj "story_brings_to_life" = some (.num v6))
    (k7 : jlookup obj "passion" = some (.num v7))
    (r1a : 1 ≤ v1) (r1b : v1 ≤ 5) (r2a : 1 ≤ v2) (r2b : v2 ≤ 5)
    (r3a : 1 ≤ v3) (r3b : v3 ≤ 5) (r4a : 1 ≤ v4) (r4b : v4 ≤ 5)
    (r5a : 1 ≤ v5) (r5b : v5 ≤ 5) (r6a : 1 ≤ v6) (r6b : v6 ≤ 5)
    (r7a : 1 ≤ v7) (r7b : v7 ≤ 5) :
    (extract_scores_from_response jsonLoads text iid).scores =
      [some v1, some v2, some v3, some v4, some v5, some v6, some v7] ∧
    (extract_scores_from_response jsonLoads text iid).weighted_score =
      round2 (v1 * (175/1000) + v2 * (175/1000) + v3 * (175/1000) +
        v4 * (175/1000) + v5 * (12/100) + v6 * (12/100) + v7 * (6/100)) ∧
    (weightsList.map Prod.snd).sum = 1 := by
  have ht1 : tier1Scores jsonLoads text =
      [("taste", v1), ("appearance", v2), ("creativity", v3),
       ("crowd_appeal", v4), ("recipe_ties_story", v5),
       ("story_brings_to_life", v6), ("passion", v7)] := by
    unfold tier1Scores
    rw [hb]
    simp only [hj]
    simp [score_keys, k1, k2, k3, k4, k5, k6, k7, r1a, r1b, r2a, r2b,
      r3a, r3b, r4a, r4b, r5a, r5b, r6a, r6b, r7a, r7b]
  have h7 : (tier1Scores jsonLoads text).length = 7 := by rw [ht1]; rfl
  rw [extract_of_seven jsonLoads text iid h7]
  rw [ht1]
  refine ⟨?_, ?_, by norm_num [weightsList]⟩
  · simp [score_keys, List.lookup]
  · simp [weightsList, List.lookup]

/-- Witness for C2: a concrete all-threes JSON object. -/
theorem claim_C2_tier1_extraction_witness :
    (extract_scores_from_response
        (fun _ => some [("taste", .num 3), ("appearance", .num 3),
          ("creativity", .num 3), ("crowd_appeal", .num 3),
          ("recipe_ties_story", .num 3), ("story_brings_to_life", .num 3),
          ("passion", .num 3)]) "\x7bx\x7d" 0).scores =
      [some 3, some 3, some 3, some 3, some 3, some 3, some 3] ∧
    (extract_scores_from_response
        (fun _ => some [("taste", .num 3), ("appearance", .num 3),
          ("creativity", .num 3), ("crowd_appeal", .num 3),
          ("recipe_ties_story", .num 3), ("story_brings_to_life", .num 3),
          ("passion", .num 3)]) "\x7bx\x7d" 0).weighted_score =
      round2 (3 * (175/1000) + 3 * (175/1000) + 3 * (175/1000) +
        3 * (175/1000) + 3 * (12/100) + 3 * (12/100) + 3 * (6/100)) := by
  have h := claim_C2_tier1_extraction
    (fun _ => some [("taste", .num 3), ("appearance", .num 3),
      ("creativity", .num 3), ("crowd_appeal", .num 3),
      ("recipe_ties_story", .num 3), ("story_brings_to_life", .num 3),
      ("passion", .num 3)]) "\x7bx\x7d" "\x7bx\x7d"
    [("taste", .num 3), ("appearance", .num 3), ("creativity", .num 3),
     ("crowd_appeal", .num 3), ("recipe_ties_story", .num 3),
     ("story_brings_to_life", .num 3), ("passion", .num 3)] 0
    3 3 3 3 3 3 3 (by decide) rfl
    (by decide) (by decide) (by decide) (by decide) (by decide) (by decide)
    (by decide)
    (by norm_num) (by norm_num) (by norm_num) (by norm_num) (by norm_num)
    (by norm_num) (by norm_num) (by norm_num) (by norm_num) (by norm_num)
    (by norm_num) (by norm_num) (by norm_num) (by norm_num)
  exact ⟨h.1, h.2.1⟩

/-- Claim C6 (amended): a tier-2 `key : value` / `key = value` match is
accepted exactly when the captured text is a digit 1-5 with an optional
fractional part, so the accepted value always lies in [1, 6) — values
strictly between 5 and 6 (e.g. 5.5) are accepted too, contrary to the
stated upper bound of 5; and on a response with no brace block containing
the plain text `"taste": 4`, tier-2 recovers taste = 4. -/
theorem claim_C6_tier2 :
    (∀ (text key : String) (q : ℚ),
      tier2Search text key = some q → 1 ≤ q ∧ q < 6) ∧
    (extract_scores_from_response (fun _ => none) "\"taste\": 4" 0).scores =
      [some 4, none, none, none, none, none, none] := by
  constructor
  · intro text key q h
    exact tier2Search_range text key q h
  · have hbb : firstBraceBlock "\"taste\": 4" = none := by decide
    have t2t : tier2Go "taste".data none "\"taste\": 4".data =
        some ⟨4, 0, 0⟩ := by decide
    have t2b : tier2Go "appearance".data none "\"taste\": 4".data = none := by
      decide
    have t2c : tier2Go "creativity".data none "\"taste\": 4".data = none := by
      decide
    have t2d : tier2Go "crowd_appeal".data none "\"taste\": 4".data = none := by
      decide
    have t2e : tier2Go "recipe_ties_story".data none "\"taste\": 4".data =
        none := by decide
    have t2f : tier2Go "story_brings_to_life".data none "\"taste\": 4".data =
        none := by decide
    have t2g : tier2Go "passion".data none "\"taste\": 4".data = none := by
      decide
    have t3t : tier3Go "taste".data "\"taste\": 4".data = some ⟨4, 0, 0⟩ := by
      decide
    have t3b : tier3Go "appearance".data "\"taste\": 4".data = none := by decide
    have t3c : tier3Go "creativity".data "\"taste\": 4".data = none := by decide
    have t3d : tier3Go "crowd_appeal".data "\"taste\": 4".data = none := by
      decide
    have t3e : tier3Go "recipe_ties_story".data "\"taste\": 4".data = none := by
      decide
    have t3f : tier3Go "story_brings_to_life".data "\"taste\": 4".data =
        none := by decide
    have t3g : tier3Go "passion".data "\"taste\": 4".data = none := by decide
    simp [extract_scores_from_response, tier1Scores, hbb, addTier, score_keys,
      tier2Search, tier3Search, t2t, t2b, t2c, t2d, t2e, t2f, t2g,
      t3t, t3b, t3c, t3d, t3e, t3f, t3g, List.lookup, ScoreDigits.toRat,
      parseFracDigits]

/-- Witness for C6: a concrete tier-2 match, with its bounds obtained by
applying the claim theorem. -/
theorem claim_C6_tier2_witness :
    tier2Search "taste: 4" "taste" = some 4 ∧
    (1 ≤ (4 : ℚ) ∧ (4 : ℚ) < 6) := by
  have h : tier2Search "taste: 4" "taste" = some 4 := by
    have hg : tier2Go "taste".data none "taste: 4".data = some ⟨4, 0, 0⟩ := by
      decide
    simp [tier2Search, hg, ScoreDigits.toRat]
  exact ⟨h, claim_C6_tier2.1 "taste: 4" "taste" 4 h⟩

/-- Counterexample to C6 as stated: tier-2 on the plain text `taste: 5.5`
(no brace block anywhere) records taste = 5.5, a value outside [1, 5]. -/
theorem claim_C6_cex :
    (extract_scores_from_response (fun _ => none) "taste: 5.5" 0).scores =
      [some (11/2), none, none, none, none, none, none] ∧
    ¬((11 : ℚ)/2 ≤ 5) := by
  constructor
  · have hbb : firstBraceBlock "taste: 5.5" = none := by decide
    have t2t : tier2Go "taste".data none "taste: 5.5".data =
        some ⟨5, 5, 1⟩ := by decide
    have t2b : tier2Go "appearance".data none "taste: 5.5".data = none := by
      decide
    have t2c : tier2Go "creativity".data none "taste: 5.5".data = none := by
      decide
    have t2d : tier2Go "crowd_appeal".data none "taste: 5.5".data = none := by
      decide
    have t2e : tier2Go "recipe_ties_story".data none "taste: 5.5".data =
        none := by decide
    have t2f : tier2Go "story_brings_to_life".data none "taste: 5.5".data =
        none := by decide
    have t2g : tier2Go "passion".data none "taste: 5.5".data = none := by
      decide
    have t3t : tier3Go "taste".data "taste: 5.5".data = some ⟨5, 0, 0⟩ := by
      decide
    have t3b : tier3Go "appearance".data "taste: 5.5".data = none := by decide
    have t3c : tier3Go "creativity".data "taste: 5.5".data = none := by decide
    have t3d : tier3Go "crowd_appeal".data "taste: 5.5".data = none := by
      decide
    have t3e : tier3Go "recipe_ties_story".data "taste: 5.5".data = none := by
      decide
    have t3f : tier3Go "story_brings_to_life".data "taste: 5.5".data =
        none := by decide
    have t3g : tier3Go "passion".data "taste: 5.5".data = none := by decide
    have hf : parseFracDigits ['.', '5'] = (5, 1) := by decide
    have hv : (⟨5, 5, 1⟩ : ScoreDigits).toRat = 11/2 := by
      unfold ScoreDigits.toRat
      norm_num
    simp [extract_scores_from_response, tier1Scores, hbb, addTier, score_keys,
      tier2Search, tier3Search, t2t, t2b, t2c, t2d, t2e, t2f, t2g,
      t3t, t3b, t3c, t3d, t3e, t3f, t3g, List.lookup, hf, hv,
      ScoreDigits.toRat]
    norm_num
  · norm_num

lemma foldl_maxOp_num (rs : List ℝ) :
    ∀ x : ℝ, (rs.map NFloat.num).foldl NFloat.maxOp (.num x) =
      .num (rs.foldl max x) := by
  induction rs with
  | nil => intro x; rfl
  | cons a tl ih =>
    intro x
    simp only [List.map_cons, List.foldl_cons]
    exact ih (max x a)

lemma foldl_add_num (rs : List ℝ) :
    ∀ x : ℝ, (rs.map NFloat.num).foldl NFloat.add (.num x) =
      .num (rs.foldl (· + ·) x) := by
  induction rs with
  | nil => intro x; rfl
  | cons a tl ih =>
    intro x
    simp only [List.map_cons, List.foldl_cons]
    exact ih (x + a)

lemma foldl_add_eq_sum (rs : List ℝ) :
    ∀ x : ℝ, rs.foldl (· + ·) x = x + rs.sum := by
  induction rs with
  | nil => intro x; simp
  | cons a tl ih =>
    intro x
    simp only [List.foldl_cons, List.sum_cons, ih]
    ring

lemma map_exp_sub_num (rs : List ℝ) (m : ℝ) :
    (rs.map NFloat.num).map (fun v => NFloat.exp (v.sub (.num m))) =
      (rs.map fun v => Real.exp (v - m)).map NFloat.num := by
  induction rs with
  | nil => rfl
  | cons a tl ih =>
    simp only [List.map_cons]
    rw [ih]
    rfl

lemma map_div_num (es : List ℝ) (s : ℝ) :
    (es.map NFloat.num).map (fun e => NFloat.div e (.num s)) =
      (es.map fun e => e / s).map NFloat.num := by
  induction es with
  | nil => rfl
  | cons a tl ih =>
    simp only [List.map_cons]
    rw [ih]
    rfl

lemma map_div_sum_num (es : List ℝ) :
    (es.map NFloat.num).map (fun e =>
      e.div ((es.map NFloat.num).foldl NFloat.add (NFloat.num 0))) =
    (es.map (fun e => e / es.sum)).map NFloat.num := by
  have hs : (es.map NFloat.num).foldl NFloat.add (NFloat.num 0) =
      .num es.sum := by
    have := foldl_add_num es 0
    rw [foldl_add_eq_sum] at this
    simpa using this
  rw [hs]
  exact map_div_num es es.sum

lemma softmaxNF_num (rs : List ℝ) (h : rs ≠ []) :
    softmaxNF (rs.map NFloat.num) = .ok ((softmaxR rs).map NFloat.num) := by
  match rs with
  | [] => exact absurd rfl h
  | x :: rest =>
    have hmax : npMax (NFloat.num x :: rest.map NFloat.num) =
        .ok (.num (rest.foldl max x)) := by
      show Except.ok ((rest.map NFloat.num).foldl NFloat.maxOp (.num x)) = _
      rw [foldl_maxOp_num]
    have hLf : (NFloat.num x :: rest.map NFloat.num).map
        (fun v => NFloat.exp (v.sub (.num (rest.foldl max x)))) =
        ((x :: rest).map (fun v => Real.exp (v - rest.foldl max x))).map
          NFloat.num := map_exp_sub_num (x :: rest) (rest.foldl max x)
    have hXY : ((NFloat.num x :: rest.map NFloat.num).map
          (fun v => NFloat.exp (v.sub (.num (rest.foldl max x))))).map
          (fun e => e.div (((NFloat.num x :: rest.map NFloat.num).map
            (fun v => NFloat.exp (v.sub (.num (rest.foldl max x))))).foldl
              NFloat.add (NFloat.num 0))) =
        (softmaxR (x :: rest)).map NFloat.num := by
      rw [hLf, map_div_sum_num]
      rfl
    unfold softmaxNF
    simp only [List.map_cons]
    rw [hmax]
    exact congrArg Except.ok hXY

lemma sum_map_div (l : List ℝ) (c : ℝ) :
    (l.map (fun e => e / c)).sum = l.sum / c := by
  induction l with
  | nil => simp
  | cons a tl ih => simp [ih, add_div]

lemma softmaxR_sum (rs : List ℝ) (h : rs ≠ []) : (softmaxR rs).sum = 1 := by
  match rs with
  | [] => exact absurd rfl h
  | x :: rest =>
    have hpos : 0 <
        ((x :: rest).map (fun v => Real.exp (v - rest.foldl max x))).sum := by
      apply List.sum_pos
      · intro y hy
        obtain ⟨v, _, rfl⟩ := List.mem_map.mp hy
        exact Real.exp_pos _
      · simp
    show ((((x :: rest).map (fun v => Real.exp (v - rest.foldl max x))).map
      (fun e => e / ((x :: rest).map
        (fun v => Real.exp (v - rest.foldl max x))).sum)).sum) = 1
    rw [sum_map_div]
    exact div_self (ne_of_gt hpos)

lemma argmaxGo_num (rs : List ℝ) :
    ∀ (i bi : ℕ) (bv : ℝ),
      argmaxGo (rs.map NFloat.num) i bi (.num bv) = realArgmaxGo rs i bi bv := by
  induction rs with
  | nil => intros; rfl
  | cons v tl ih =>
    intro i bi bv
    unfold argmaxGo realArgmaxGo
    simp only [List.map_cons]
    by_cases h : bv < v
    · rw [if_pos (show NFloat.gtP (.num v) (.num bv) ∨
          ((NFloat.num v).isNan = true ∧ (NFloat.num bv).isNan = false) from
          Or.inl h), if_pos h]
      exact ih (i + 1) i v
    · have hcond : ¬(NFloat.gtP (.num v) (.num bv) ∨
          ((NFloat.num v).isNan = true ∧ (NFloat.num bv).isNan = false)) := by
        rintro (hg | ⟨hn, _⟩)
        · exact h hg
        · simp [NFloat.isNan] at hn
      rw [if_neg hcond, if_neg h]
      exact ih (i + 1) bi bv

lemma argmaxNF_num (rs : List ℝ) :
    argmaxNF (rs.map NFloat.num) = realArgmax rs := by
  match rs with
  | [] => rfl
  | x :: rest =>
    show argmaxGo (rest.map NFloat.num) 1 0 (.num x) = realArgmaxGo rest 1 0 x
    exact argmaxGo_num rest 1 0 x

lemma realArgmaxGo_map (f : ℝ → ℝ) (hf : StrictMono f) (rest : List ℝ) :
    ∀ (i bi : ℕ) (bv : ℝ),
      realArgmaxGo (rest.map f) i bi (f bv) = realArgmaxGo rest i bi bv := by
  induction rest with
  | nil => intros; rfl
  | cons v tl ih =>
    intro i bi bv
    unfold realArgmaxGo
    simp only [List.map_cons]
    by_cases h : bv < v
    · rw [if_pos (hf h), if_pos h, ih]
    · rw [if_neg (fun hc => h (hf.lt_iff_lt.mp hc)), if_neg h, ih]

lemma realArgmax_map (f : ℝ → ℝ) (hf : StrictMono f) (rs : List ℝ) :
    realArgmax (rs.map f) = realArgmax rs := by
  match rs with
  | [] => rfl
  | x :: rest =>
    show realArgmaxGo (rest.map f) 1 0 (f x) = realArgmaxGo rest 1 0 x
    exact realArgmaxGo_map f hf rest 1 0 x

lemma realArgmaxGo_cases (rest : List ℝ) :
    ∀ (i bi : ℕ) (bv : ℝ),
      (realArgmaxGo rest i bi bv = bi ∧ ∀ x ∈ rest, x ≤ bv) ∨
      (∃ j : Fin rest.length, realArgmaxGo rest i bi bv = i + j.1 ∧
        bv < rest.get j ∧ (∀ x ∈ rest, x ≤ rest.get j) ∧
        (∀ l (hl : l < j.1), rest.get ⟨l, lt_trans hl j.2⟩ < rest.get j)) := by
  induction rest with
  | nil =>
    intro i bi bv
    left
    exact ⟨rfl, by simp⟩
  | cons v tl ih =>
    intro i bi bv
    unfold realArgmaxGo
    by_cases hvb : bv < v
    · rw [if_pos hvb]
      rcases ih (i + 1) i v with ⟨heq, hle⟩ | ⟨j, heq, hlt, hmax, hfirst⟩
      · right
        refine ⟨⟨0, by simp⟩, by simpa using heq, by simpa using hvb, ?_, ?_⟩
        · intro x hx
          rcases List.mem_cons.mp hx with hx | hx
          · subst hx; simp
          · simpa using hle x hx
        · intro l hl
          exact absurd hl (Nat.not_lt_zero l)
      · right
        refine ⟨⟨j.1 + 1, by simp [Nat.succ_lt_succ j.2]⟩, ?_, ?_, ?_, ?_⟩
        · rw [heq]
          show i + 1 + j.1 = i + (j.1 + 1)
          omega
        · simpa using lt_trans hvb hlt
        · intro x hx
          rcases List.mem_cons.mp hx with hx | hx
          · subst hx
            simpa using le_of_lt hlt
          · simpa using hmax x hx
        · intro l hl
          match l with
          | 0 => simpa using hlt
          | Nat.succ l' =>
            have hl2 : Nat.succ l' < j.1 + 1 := hl
            have hl' : l' < j.1 := by omega
            simpa using hfirst l' hl'
    · rw [if_neg hvb]
      rcases ih (i + 1) bi bv with ⟨heq, hle⟩ | ⟨j, heq, hlt, hmax, hfirst⟩
      · left
        refine ⟨heq, ?_⟩
        intro x hx
        rcases List.mem_cons.mp hx with hx | hx
        · subst hx; exact le_of_not_lt hvb
        · exact hle x hx
      · right
        refine ⟨⟨j.1 + 1, by simp [Nat.succ_lt_succ j.2]⟩, ?_, ?_, ?_, ?_⟩
        · rw [heq]
          show i + 1 + j.1 = i + (j.1 + 1)
          omega
        · simpa using hlt
        · intro x hx
          rcases List.mem_cons.mp hx with hx | hx
          · subst hx
            have : x ≤ bv := le_of_not_lt hvb
            simpa using le_of_lt (lt_of_le_of_lt this hlt)
          · simpa using hmax x hx
        · intro l hl
          match l with
          | 0 =>
            have : v ≤ bv := le_of_not_lt hvb
            simpa using lt_of_le_of_lt this hlt
          | Nat.succ l' =>
            have hl2 : Nat.succ l' < j.1 + 1 := hl
            have hl' : l' < j.1 := by omega
            simpa using hfirst l' hl'

lemma realArgmax_firstmax (rs : List ℝ) (h : rs ≠ []) :
    ∃ hk : realArgmax rs < rs.length,
      (∀ x ∈ rs, x ≤ rs.get ⟨realArgmax rs, hk⟩) ∧
      (∀ l (hl : l < realArgmax rs),
        rs.get ⟨l, lt_trans hl hk⟩ < rs.get ⟨realArgmax rs, hk⟩) := by
  match rs with
  | [] => exact absurd rfl h
  | x :: rest =>
    have hshow : realArgmax (x :: rest) = realArgmaxGo rest 1 0 x := rfl
    rcases realArgmaxGo_cases rest 1 0 x with ⟨heq, hle⟩ |
      ⟨j, heq, hlt, hmax, hfirst⟩
    · have hk0 : realArgmax (x :: rest) = 0 := by rw [hshow, heq]
      rw [hk0]
      refine ⟨by simp, ?_, ?_⟩
      · intro y hy
        rcases List.mem_cons.mp hy with hy | hy
        · subst hy; simp
        · simpa using hle y hy
      · intro l hl
        exact absurd hl (Nat.not_lt_zero l)
    · have hk1 : realArgmax (x :: rest) = j.1 + 1 := by rw [hshow, heq]; omega
      rw [hk1]
      have hkb : j.1 + 1 < (x :: rest).length := by
        simp [Nat.succ_lt_succ j.2]
      refine ⟨hkb, ?_, ?_⟩
      · intro y hy
        rcases List.mem_cons.mp hy with hy | hy
        · subst hy
          simpa using le_of_lt hlt
        · simpa using hmax y hy
      · intro l hl
        match l with
        | 0 => simpa using hlt
        | Nat.succ l' =>
          have hl' : l' < j.1 := by omega
          simpa using hfirst l' hl'

lemma toNFloat_fin (p : PFloat) (h : p.isFiniteNum = true) :
    p.toNFloat = .num (pfReal p) := by
  cases p
  · rfl
  all_goals simp [PFloat.isFiniteNum] at h

lemma map_scores_fin (l : List ClusterEntry)
    (hfin : ∀ e ∈ l, e.score.isFiniteNum = true) :
    l.map (fun e => e.score.toNFloat) =
      (l.map (fun e => pfReal e.score)).map NFloat.num := by
  rw [List.map_map]
  exact List.map_congr_left (fun e he => toNFloat_fin e.score (hfin e he))

lemma softmaxR_map_form (x : ℝ) (rest : List ℝ) :
    softmaxR (x :: rest) = (x :: rest).map
      (fun v => Real.exp (v - rest.foldl max x) /
        ((x :: rest).map (fun w => Real.exp (w - rest.foldl max x))).sum) := by
  show (((x :: rest).map (fun v => Real.exp (v - rest.foldl max x))).map
      (fun e => e / ((x :: rest).map
        (fun v => Real.exp (v - rest.foldl max x))).sum)) = _
  rw [List.map_map]
  rfl

lemma strictMono_expdiv (M S : ℝ) (hS : 0 < S) :
    StrictMono (fun v : ℝ => Real.exp (v - M) / S) := by
  intro a b hab
  have hexp : Real.exp (a - M) < Real.exp (b - M) := by
    apply Real.exp_lt_exp.mpr
    linarith
  exact (div_lt_div_iff_of_pos_right hS).mpr hexp

lemma leB_of_fin (a b : PFloat) (ha : a.isFiniteNum = true)
    (hb : b.isFiniteNum = true) (h : pfReal a ≤ pfReal b) :
    a.leB b = true := by
  cases a with
  | num qa =>
    cases b with
    | num qb =>
      simp only [pfReal] at h
      simp only [PFloat.leB, decide_eq_true_eq]
      exact_mod_cast h
    | nan => simp [PFloat.isFiniteNum] at hb
    | inf => simp [PFloat.isFiniteNum] at hb
    | ninf => simp [PFloat.isFiniteNum] at hb
  | nan => simp [PFloat.isFiniteNum] at ha
  | inf => simp [PFloat.isFiniteNum] at ha
  | ninf => simp [PFloat.isFiniteNum] at ha

lemma ltB_of_fin (a b : PFloat) (ha : a.isFiniteNum = true)
    (hb : b.isFiniteNum = true) (h : pfReal a < pfReal b) :
    a.ltB b = true := by
  cases a with
  | num qa =>
    cases b with
    | num qb =>
      simp only [pfReal] at h
      simp only [PFloat.ltB, PFloat.gtB, gt_iff_lt, decide_eq_true_eq]
      exact_mod_cast h
    | nan => simp [PFloat.isFiniteNum] at hb
    | inf => simp [PFloat.isFiniteNum] at hb
    | ninf => simp [PFloat.isFiniteNum] at hb
  | nan => simp [PFloat.isFiniteNum] at ha
  | inf => simp [PFloat.isFiniteNum] at ha
  | ninf => simp [PFloat.isFiniteNum] at ha

/-- Claim C5: on a non-empty cluster whose member scores are all finite
real numbers, `get_best_program` returns the member selected by the
argmax of the softmax of the raw scores, and that member is the first
member attaining the highest raw score (softmax is order-preserving). -/
theorem claim_C5_best_selection (c : Cluster)
    (hne : c.programs ≠ [])
    (hfin : ∀ e ∈ c.programs, e.score.isFiniteNum = true) :
    ∃ (k : ℕ) (hk : k < c.programs.length),
      c.get_best_program = .ok (c.programs.get ⟨k, hk⟩) ∧
      (∀ e ∈ c.programs,
        e.score.leB (c.programs.get ⟨k, hk⟩).score = true) ∧
      (∀ j (hj : j < k),
        (c.programs.get ⟨j, lt_trans hj hk⟩).score.ltB
          (c.programs.get ⟨k, hk⟩).score = true) := by
  have hmapToN := map_scores_fin c.programs hfin
  have hrsne : c.programs.map (fun e => pfReal e.score) ≠ [] := by
    intro hx
    exact hne (List.map_eq_nil_iff.mp hx)
  have hsm := softmaxNF_num (c.programs.map fun e => pfReal e.score) hrsne
  have hgb : c.get_best_program = .ok (c.programs.getD
      (argmaxNF ((softmaxR (c.programs.map fun e => pfReal e.score)).map
        NFloat.num)) default) := by
    unfold Cluster.get_best_program
    rw [hmapToN, hsm]
  rw [argmaxNF_num] at hgb
  have hargeq :
      realArgmax (softmaxR (c.programs.map fun e => pfReal e.score)) =
      realArgmax (c.programs.map fun e => pfReal e.score) := by
    rcases hxr : (c.programs.map fun e => pfReal e.score) with _ | ⟨x, rest⟩
    · exact absurd hxr hrsne
    · rw [hxr, softmaxR_map_form]
      apply realArgmax_map
      apply strictMono_expdiv
      apply List.sum_pos
      · intro y hy
        obtain ⟨v, _, rfl⟩ := List.mem_map.mp hy
        exact Real.exp_pos _
      · simp
  rw [hargeq] at hgb
  obtain ⟨hk0, hmax, hfirst⟩ := realArgmax_firstmax
    (c.programs.map fun e => pfReal e.score) hrsne
  have hklt : realArgmax (c.programs.map fun e => pfReal e.score) <
      c.programs.length := by simpa using hk0
  have hgetk : (c.programs.map fun e => pfReal e.score).get
      ⟨realArgmax (c.programs.map fun e => pfReal e.score), hk0⟩ =
      pfReal ((c.programs.get ⟨realArgmax
        (c.programs.map fun e => pfReal e.score), hklt⟩).score) := by
    simp [List.get_eq_getElem, List.getElem_map]
  have hbestmem : c.programs.get ⟨realArgmax
      (c.programs.map fun e => pfReal e.score), hklt⟩ ∈ c.programs :=
    c.programs.get_mem _ _
  refine ⟨realArgmax (c.programs.map fun e => pfReal e.score), hklt,
    ?_, ?_, ?_⟩
  · rw [hgb]
    congr 1
    rw [List.getD_eq_getElem c.programs default hklt]
    simp [List.get_eq_getElem]
  · intro e he
    have hmem : pfReal e.score ∈ (c.programs.map fun e => pfReal e.score) :=
      List.mem_map.mpr ⟨e, he, rfl⟩
    have hle := hmax _ hmem
    rw [hgetk] at hle
    exact leB_of_fin _ _ (hfin e he) (hfin _ hbestmem) hle
  · intro j hj
    have hjlt : j < (c.programs.map fun e => pfReal e.score).length := by
      simpa using lt_trans hj hklt
    have hlt := hfirst j hj
    have hgetj : (c.programs.map fun e => pfReal e.score).get ⟨j, hjlt⟩ =
        pfReal ((c.programs.get ⟨j, lt_trans hj hklt⟩).score) := by
      simp [List.get_eq_getElem, List.getElem_map]
    rw [hgetk, hgetj] at hlt
    exact ltB_of_fin _ _
      (hfin _ (c.programs.get_mem _ _)) (hfin _ hbestmem) hlt

/-- Witness for C5: the spec's test case, member scores 2.0, 5.0, 3.0;
the member with score 5.0 is returned. -/
theorem claim_C5_best_selection_witness :
    Cluster.get_best_program
      ⟨.num 2, [⟨default, .num 2⟩, ⟨default, .num 5⟩, ⟨default, .num 3⟩]⟩ =
      .ok ⟨default, .num 5⟩ := by
  obtain ⟨k, hk, hbest, hmax, hfirst⟩ := claim_C5_best_selection
    ⟨.num 2, [⟨default, .num 2⟩, ⟨default, .num 5⟩, ⟨default, .num 3⟩]⟩
    (by simp) (by decide)
  have hk3 : k < 3 := by simpa using hk
  interval_cases k
  · exact absurd (show (PFloat.num 5).leB (.num 2) = true from
      hmax ⟨default, .num 5⟩ (by simp)) (by decide)
  · exact hbest
  · exact absurd (show (PFloat.num 5).ltB (.num 3) = true from
      hfirst 1 (by omega)) (by decide)

lemma maxOp_nan_right (x : NFloat) : NFloat.maxOp x .nan = .nan := by
  cases x <;> rfl

lemma sub_nan_right (v : NFloat) : v.sub .nan = .nan := by
  cases v <;> rfl

lemma div_nan_left (a : NFloat) : NFloat.div .nan a = .nan := by
  cases a <;> rfl

lemma foldl_maxOp_nan : ∀ (rest : List NFloat) (x : NFloat),
    (x = .nan ∨ .nan ∈ rest) → rest.foldl NFloat.maxOp x = .nan := by
  intro rest
  induction rest with
  | nil =>
    intro x h
    rcases h with h | h
    · exact h
    · simp at h
  | cons y ys ih =>
    intro x h
    simp only [List.foldl_cons]
    rcases h with h | h
    · subst h
      exact ih _ (Or.inl (by cases y <;> rfl))
    · rcases List.mem_cons.mp h with h | h
      · subst h
        exact ih _ (Or.inl (maxOp_nan_right x))
      · exact ih _ (Or.inr h)

lemma argmaxGo_nan_best : ∀ (rest : List NFloat) (i bi : ℕ),
    argmaxGo rest i bi .nan = bi := by
  intro rest
  induction rest with
  | nil => intros; rfl
  | cons v tl ih =>
    intro i bi
    unfold argmaxGo
    rw [if_neg]
    · exact ih _ _
    · rintro (hg | ⟨_, hn⟩)
      · cases v <;> exact hg.elim
      · simp [NFloat.isNan] at hn

lemma softmaxNF_with_nan (xs : List NFloat) (hne : xs ≠ [])
    (hnan : NFloat.nan ∈ xs) :
    softmaxNF xs = .ok (xs.map (fun _ => .nan)) := by
  rcases xs with _ | ⟨x, rest⟩
  · exact absurd rfl hne
  · have hm : rest.foldl NFloat.maxOp x = .nan := by
      apply foldl_maxOp_nan
      rcases List.mem_cons.mp hnan with h | h
      · exact Or.inl h.symm
      · exact Or.inr h
    have hmax : npMax (x :: rest) = .ok .nan := by
      show Except.ok (rest.foldl NFloat.maxOp x) = _
      rw [hm]
    have hexps : (x :: rest).map (fun v => NFloat.exp (v.sub .nan)) =
        (x :: rest).map (fun _ => NFloat.nan) := by
      apply List.map_congr_left
      intro v _
      rw [sub_nan_right]
      rfl
    unfold softmaxNF
    rw [hmax]
    refine congrArg Except.ok ?_
    rw [hexps]
    rw [List.map_map]
    apply List.map_congr_left
    intro v _
    exact div_nan_left _

lemma argmaxNF_allnan (xs : List NFloat) (hne : xs ≠ []) :
    argmaxNF (xs.map (fun _ => NFloat.nan)) = 0 := by
  rcases xs with _ | ⟨x, rest⟩
  · exact absurd rfl hne
  · show argmaxGo (rest.map fun _ => NFloat.nan) 1 0 .nan = 0
    exact argmaxGo_nan_best _ 1 0

/-- Claim C8 (amended): with any NaN member score `get_best_program` does
not raise and deterministically returns the first member; but on an empty
member list it raises (the `np.max` reduction of a zero-size array) —
note no cluster built through the class interface is ever empty, since
construction seeds one member and the add operations only append. -/
theorem claim_C8_nan_and_empty (c : Cluster) :
    (c.programs = [] →
      c.get_best_program =
        .error "zero-size array to reduction operation maximum") ∧
    (c.programs ≠ [] → (∃ e ∈ c.programs, e.score = PFloat.nan) →
      c.get_best_program = .ok (c.programs.getD 0 default)) := by
  constructor
  · intro h
    unfold Cluster.get_best_program
    rw [h]
    rfl
  · intro hne hnan
    have hnanmem : NFloat.nan ∈ c.programs.map (fun p => p.score.toNFloat) := by
      obtain ⟨e0, hm, he⟩ := hnan
      exact List.mem_map.mpr ⟨e0, hm, by rw [he]; rfl⟩
    have hmapne : c.programs.map (fun p => p.score.toNFloat) ≠ [] := by
      intro hx
      exact hne (List.map_eq_nil_iff.mp hx)
    have hsm := softmaxNF_with_nan _ hmapne hnanmem
    unfold Cluster.get_best_program
    rw [hsm]
    show Except.ok (c.programs.getD (argmaxNF
      ((c.programs.map (fun p => p.score.toNFloat)).map
        (fun _ => NFloat.nan))) default) = _
    rw [argmaxNF_allnan _ hmapne]

/-- Witness for C8: a two-member cluster whose second member has a NaN
score; the first member is returned without an exception. -/
theorem claim_C8_nan_and_empty_witness :
    (⟨PFloat.num 2, [⟨default, PFloat.num 2⟩, ⟨default, PFloat.nan⟩]⟩ :
      Cluster).programs ≠ [] ∧
    Cluster.get_best_program
      ⟨.num 2, [⟨default, .num 2⟩, ⟨default, .nan⟩]⟩ =
      .ok ⟨default, .num 2⟩ := by
  refine ⟨by simp, ?_⟩
  exact (claim_C8_nan_and_empty
    ⟨.num 2, [⟨default, .num 2⟩, ⟨default, .nan⟩]⟩).2
    (by simp) ⟨⟨default, .nan⟩, by simp, rfl⟩

/-- Counterexample to C8 as stated: on an empty member list the selection
raises the numpy zero-size reduction error instead of returning a
member. -/
theorem claim_C8_cex :
    Cluster.get_best_program ⟨PFloat.num 1, []⟩ =
      .error "zero-size array to reduction operation maximum" := by
  unfold Cluster.get_best_program
  rfl

lemma softmaxR_length (rs : List ℝ) : (softmaxR rs).length = rs.length := by
  rcases rs with _ | ⟨x, rest⟩
  · rfl
  · show (((x :: rest).map (fun v => Real.exp (v - rest.foldl max x))).map
      (fun e => e / ((x :: rest).map
        (fun v => Real.exp (v - rest.foldl max x))).sum)).length = _
    simp

lemma map_softmax_zipWith : ∀ (rows : List FormattedData) (sm : List NFloat),
    rows.length = sm.length →
    (List.zipWith RankedRow.mk rows sm).map (fun r => r.softmax_score) = sm := by
  intro rows
  induction rows with
  | nil =>
    intro sm h
    rcases sm with _ | ⟨s, st⟩
    · rfl
    · simp at h
  | cons r rt ih =>
    intro sm h
    rcases sm with _ | ⟨s, st⟩
    · simp at h
    · simp only [List.zipWith_cons_cons, List.map_cons]
      rw [ih st (by simpa using h)]

lemma nfSum_num (ls : List ℝ) : nfSum (ls.map NFloat.num) = .num ls.sum := by
  unfold nfSum
  rw [foldl_add_num, foldl_add_eq_sum]
  norm_num

lemma eq_map_nfReal (xs : List NFloat)
    (hall : ∀ x ∈ xs, ∃ r, x = NFloat.num r) :
    xs = (xs.map nfReal).map NFloat.num := by
  induction xs with
  | nil => rfl
  | cons x tl ih =>
    obtain ⟨r, hr⟩ := hall x (by simp)
    subst hr
    simp only [List.map_cons]
    rw [← ih (fun y hy => hall y (by simp [hy]))]
    rfl

lemma nfSum_of_num_perm (xs : List NFloat) (ls : List ℝ)
    (h : xs.Perm (ls.map NFloat.num)) : nfSum xs = .num ls.sum := by
  have hall : ∀ x ∈ xs, ∃ r, x = NFloat.num r := by
    intro x hx
    have := h.mem_iff.mp hx
    obtain ⟨r, _, hr⟩ := List.mem_map.mp this
    exact ⟨r, hr.symm⟩
  have hxs := eq_map_nfReal xs hall
  have hperm2 : (xs.map nfReal).Perm ((ls.map NFloat.num).map nfReal) :=
    h.map nfReal
  have hls : (ls.map NFloat.num).map nfReal = ls := by
    rw [List.map_map]
    exact List.map_id'' (fun x => rfl) ls
  rw [hxs, nfSum_num]
  have hsum : (xs.map nfReal).sum = ls.sum := by
    rw [← hls]
    exact hperm2.sum_eq
  rw [hsum]

/-- Claim C7: with at least one artifact on the island (and the stored
weighted scores finite, as every row registered through the pipeline is),
the softmax values attached by `rank_programs` sum to exactly 1; the
ranking never mutates the shared store; and a second call on the
unchanged store returns the identical ranking. -/
theorem claim_C7_rank_idempotent_sum (store : List FormattedData) (iid : Int)
    (hne : store.filter (fun r => r.island_id == iid) ≠ [])
    (hfin : ∀ r ∈ store.filter (fun r => r.island_id == iid),
      r.weighted_score.isFiniteNum = true) :
    nfSum ((rank_programs store iid).map (fun r => r.softmax_score)) =
      .num 1 ∧
    (rank_state store iid).1 = store ∧
    rank_programs (rank_state store iid).1 iid = rank_programs store iid := by
  classical
  refine ⟨?_, rfl, rfl⟩
  have hmapfin : (store.filter (fun r => r.island_id == iid)).map
      (fun r => r.weighted_score.toNFloat) =
      ((store.filter (fun r => r.island_id == iid)).map
        (fun r => pfReal r.weighted_score)).map NFloat.num := by
    rw [List.map_map]
    exact List.map_congr_left (fun r hr => toNFloat_fin _ (hfin r hr))
  have hrsne : ((store.filter (fun r => r.island_id == iid)).map
      (fun r => pfReal r.weighted_score)) ≠ [] := by
    intro hx
    exact hne (List.map_eq_nil_iff.mp hx)
  have hsm := softmaxNF_num _ hrsne
  have hemp : (store.filter (fun r => r.island_id == iid)).isEmpty = false := by
    rcases hh : (store.filter (fun r => r.island_id == iid)).isEmpty
    · exact hh
    · exact absurd (List.isEmpty_iff.mp hh) hne
  have hrank : rank_programs store iid =
      (List.zipWith RankedRow.mk (store.filter (fun r => r.island_id == iid))
        ((softmaxR ((store.filter (fun r => r.island_id == iid)).map
          (fun r => pfReal r.weighted_score))).map NFloat.num)).insertionSort
        (fun a b => rankLe a.softmax_score b.softmax_score) := by
    simp only [rank_programs]
    rw [hemp]
    simp only [Bool.false_eq_true, if_false]
    rw [hmapfin, hsm]
  rw [hrank]
  have hlen : (store.filter (fun r => r.island_id == iid)).length =
      ((softmaxR ((store.filter (fun r => r.island_id == iid)).map
        (fun r => pfReal r.weighted_score))).map NFloat.num).length := by
    simp [softmaxR_length]
  have hperm : ((List.zipWith RankedRow.mk
      (store.filter (fun r => r.island_id == iid))
      ((softmaxR ((store.filter (fun r => r.island_id == iid)).map
        (fun r => pfReal r.weighted_score))).map NFloat.num)).insertionSort
      (fun a b => rankLe a.softmax_score b.softmax_score)).map
        (fun r => r.softmax_score) |>.Perm
      ((softmaxR ((store.filter (fun r => r.island_id == iid)).map
        (fun r => pfReal r.weighted_score))).map NFloat.num) := by
    have h1 := List.perm_insertionSort
      (fun a b : RankedRow => rankLe a.softmax_score b.softmax_score)
      (List.zipWith RankedRow.mk (store.filter (fun r => r.island_id == iid))
        ((softmaxR ((store.filter (fun r => r.island_id == iid)).map
          (fun r => pfReal r.weighted_score))).map NFloat.num))
    have h2 := h1.map (fun r : RankedRow => r.softmax_score)
    rw [map_softmax_zipWith _ _ hlen] at h2
    exact h2
  have := nfSum_of_num_perm _ _ hperm
  rw [this, softmaxR_sum _ hrsne]

/-- Witness for C7: a one-row store; the attached softmax column sums to
1 and the store is untouched. -/
theorem claim_C7_rank_idempotent_sum_witness :
    nfSum ((rank_programs
      [{ (default : FormattedData) with
          island_id := 0,
          weighted_score := PFloat.num 2 }] 0).map
        (fun r => r.softmax_score)) = .num 1 ∧
    (rank_state
      [{ (default : FormattedData) with
          island_id := 0,
          weighted_score := PFloat.num 2 }] 0).1 =
      [{ (default : FormattedData) with
          island_id := 0,
          weighted_score := PFloat.num 2 }] := by
  have h := claim_C7_rank_idempotent_sum
    [{ (default : FormattedData) with
        island_id := 0,
        weighted_score := PFloat.num 2 }] 0
    (by decide) (by decide)
  exact ⟨h.1, h.2.1⟩

/-! ### C9: concurrent registration -/

lemma registerStoreStep_eq (st : IslandState) (store : List FormattedData)
    (inp : RegInput) :
    (register_and_evaluate_program st store inp.recipe inp.island_id
      inp.resp).2 = registerStoreStep store inp := by
  unfold registerStoreStep
  rw [register_unfold, register_unfold]
  by_cases h : registrationOk inp.recipe inp.resp = true
  · rw [if_pos h, if_pos h]
  · rw [if_neg h, if_neg h]

lemma foldl_registerStoreStep_eq :
    ∀ (sched : List RegInput) (init : List FormattedData),
    sched.foldl registerStoreStep init = init ++ sched.filterMap regRow
  | [], init => by simp
  | i :: tl, init => by
    rw [List.foldl_cons, foldl_registerStoreStep_eq tl]
    unfold registerStoreStep
    rw [register_unfold]
    by_cases h : registrationOk i.recipe i.resp = true
    · rw [if_pos h]
      simp [regRow, h]
    · rw [if_neg h]
      simp [regRow, h]

lemma foldl_registerStoreStep_length :
    ∀ (sched : List RegInput) (init : List FormattedData),
    (sched.foldl registerStoreStep init).length =
      init.length + sched.countP (fun i => registrationOk i.recipe i.resp)
  | [], init => by simp
  | i :: tl, init => by
    rw [List.foldl_cons, foldl_registerStoreStep_length tl,
      List.countP_cons]
    unfold registerStoreStep
    rw [register_unfold]
    by_cases h : registrationOk i.recipe i.resp = true
    · rw [if_pos h]
      simp [h]
      omega
    · rw [if_neg h]
      simp [h]

/-- Claim C9: for any interleaving `sched` (a permutation of the
scheduled registration calls `inputs`) run against any initial store, the
final store is the initial store followed by exactly one row per call
that individually passed validation, in schedule order — no registration
is lost, duplicated or corrupted — and in particular the final store
length is the initial length plus the number of inputs that pass
validation, independent of the interleaving. -/
theorem claim_C9_concurrent_store (inputs sched : List RegInput)
    (init : List FormattedData) (hperm : sched.Perm inputs) :
    sched.foldl registerStoreStep init = init ++ sched.filterMap regRow ∧
    (sched.foldl registerStoreStep init).length =
      init.length +
        inputs.countP (fun i => registrationOk i.recipe i.resp) := by
  refine ⟨foldl_registerStoreStep_eq sched init, ?_⟩
  rw [foldl_registerStoreStep_length, hperm.countP_eq]

/-- Witness for C9: one valid and one invalid call, scheduled in the
opposite order from the declared batch; the final store holds exactly the
valid call's row and its length matches the validation count of the
declared batch. -/
theorem claim_C9_concurrent_store_witness :
    List.foldl registerStoreStep []
      [⟨⟨.pstr "Cake", .plist [some "flour"], .pstr "Mix well", "", ""⟩, 0,
        ⟨.list [some (.num 3), some (.num 3), some (.num 3), some (.num 3),
                some (.num 3), some (.num 3), some (.num 3)],
         .val (.num 2), none⟩⟩,
       ⟨⟨.pstr "", .plist [some "flour"], .pstr "Mix well", "", ""⟩, 1,
        ⟨.list [some (.num 3), some (.num 3), some (.num 3), some (.num 3),
                some (.num 3), some (.num 3), some (.num 3)],
         .val (.num 2), none⟩⟩] =
      [] ++ List.filterMap regRow
        [⟨⟨.pstr "Cake", .plist [some "flour"], .pstr "Mix well", "", ""⟩, 0,
          ⟨.list [some (.num 3), some (.num 3), some (.num 3), some (.num 3),
                  some (.num 3), some (.num 3), some (.num 3)],
           .val (.num 2), none⟩⟩,
         ⟨⟨.pstr "", .plist [some "flour"], .pstr "Mix well", "", ""⟩, 1,
          ⟨.list [some (.num 3), some (.num 3), some (.num 3), some (.num 3),
                  some (.num 3), some (.num 3), some (.num 3)],
           .val (.num 2), none⟩⟩] ∧
    (List.foldl registerStoreStep []
      [⟨⟨.pstr "Cake", .plist [some "flour"], .pstr "Mix well", "", ""⟩, 0,
        ⟨.list [some (.num 3), some (.num 3), some (.num 3), some (.num 3),
                some (.num 3), some (.num 3), some (.num 3)],
         .val (.num 2), none⟩⟩,
       ⟨⟨.pstr "", .plist [some "flour"], .pstr "Mix well", "", ""⟩, 1,
        ⟨.list [some (.num 3), some (.num 3), some (.num 3), some (.num 3),
                some (.num 3), some (.num 3), some (.num 3)],
         .val (.num 2), none⟩⟩]).length =
      List.length ([] : List FormattedData) +
        List.countP (fun i : RegInput => registrationOk i.recipe i.resp)
          [⟨⟨.pstr "", .plist [some "flour"], .pstr "Mix well", "", ""⟩, 1,
            ⟨.list [some (.num 3), some (.num 3), some (.num 3),
                    some (.num 3), some (.num 3), some (.num 3),
                    some (.num 3)],
             .val (.num 2), none⟩⟩,
           ⟨⟨.pstr "Cake", .plist [some "flour"], .pstr "Mix well", "", ""⟩,
            0,
            ⟨.list [some (.num 3), some (.num 3), some (.num 3),
                    some (.num 3), some (.num 3), some (.num 3),
                    some (.num 3)],
             .val (.num 2), none⟩⟩] := by
  exact claim_C9_concurrent_store _ _ []
    (List.Perm.swap
      (⟨⟨.pstr "", .plist [some "flour"], .pstr "Mix well", "", ""⟩, 1,
        ⟨.list [some (.num 3), some (.num 3), some (.num 3), some (.num 3),
                some (.num 3), some (.num 3), some (.num 3)],
         .val (.num 2), none⟩⟩ : RegInput)
      (⟨⟨.pstr "Cake", .plist [some "flour"], .pstr "Mix well", "", ""⟩, 0,
        ⟨.list [some (.num 3), some (.num 3), some (.num 3), some (.num 3),
                some (.num 3), some (.num 3), some (.num 3)],
         .val (.num 2), none⟩⟩ : RegInput)
      [])

/-! ### C10: store reset between runs -/

/-- Claim C10: `fun_search_optimization` resets the class-wide store
before initialising any island, so the store it returns holds exactly the
rows registered by this run's own calls, and two runs with the same calls
return the same store whatever a previous run left behind — no artifact
leaks between successive runs. -/
theorem claim_C10_reset_no_leak (prev prev' : List FormattedData)
    (calls : List RegInput) :
    fun_search_optimization prev calls = calls.filterMap regRow ∧
    fun_search_optimization prev calls =
      fun_search_optimization prev' calls := by
  have h : ∀ p : List FormattedData,
      fun_search_optimization p calls = calls.filterMap regRow := by
    intro p
    unfold fun_search_optimization resetStore
    rw [foldl_registerStoreStep_eq]
    simp
  exact ⟨h prev, (h prev).trans (h prev').symm⟩

end RecipeSearch
